import Mathlib

/-!
# Verification of the Apriori frequent-itemset engine (`src/itemset.rs`)

This file gives a shallow embedding of the itemset-mining engine in
`src/itemset.rs` (functions `generate_frequent_itemsets`, `yo`,
`generate_frequent_itemset_counts_from_candidates`,
`generate_candidates_from_prev`, `convert_to_itemset_counts`,
`generate_frequent_item_counts`) and proves the specification claims
about it.

Modelling conventions:
* Rust `HashMap`s are modelled as association lists with unique keys
  (`List (α × β)`); all claims are phrased through key lookup and
  membership, which is insensitive to entry order, matching `HashMap`
  content equality.
* Rust `HashSet<&str>` raw transactions are modelled as `List String`;
  the list order stands for the (arbitrary) iteration order of the set,
  and claims quantify over all orders.  Where set semantics matters
  (no duplicate labels inside one transaction) it appears as an
  explicit `Nodup` hypothesis.
* `f32` arithmetic is idealised as exact rational (`ℚ`) arithmetic.
  All concrete evaluations in this file use values (`0`, `1/2`, `1`,
  powers of two) at which `f32` computation is exact, so the
  idealisation is faithful at every concrete input used.
  Rust's saturating float-to-integer casts (`as u32`, `as usize`)
  are modelled exactly, by clamping to the integer type's range.
* `u32` support counters appear twice: the idealised definitions model
  them as unbounded `ℕ`, and the `..W` variants model the release-build
  `u32` semantics exactly — the increment `*count += 1` wraps modulo
  `2^32` and the integer cast `candidate_count as u32` truncates modulo
  `2^32`.  Bridge theorems prove both models equal on inputs with fewer
  than `2^32` transactions (a support count never exceeds the number of
  transactions), and the wrapping model exhibits the counter overflow
  at `2^32`-transaction inputs.
* `repF32` characterises the finite `f32` values; theorems about the
  threshold computation restrict to domains (representable operands
  and results, at most `2^24` transactions) on which every `f32`
  operation of the source is exact, so the rational model of the
  threshold coincides with the `f32` computation there.
* The `rayon` parallel iteration in `yo` and
  `generate_frequent_itemset_counts_from_candidates` only maps a pure
  function over independent candidates and collects the results into a
  map; it is modelled by the corresponding sequential `filterMap`.
-/

namespace Apriori

/-- Raw item labels (`&str` in the source). -/
abbrev Label := String

/-- `type Itemset = Vec<usize>`: a sorted vector of item identifiers. -/
abbrev Itemset := List Nat

/-- `type Transaction = Vec<usize>`: a normalized transaction. -/
abbrev Transaction := List Nat

/-- `type ItemCounts = HashMap<usize, u32>` as an association list. -/
abbrev ItemCounts := List (Nat × Nat)

/-- `type Inventory = HashMap<usize, &str>` as an association list. -/
abbrev Inventory := List (Nat × Label)

/-- `type ReverseLookup = HashMap<&str, usize>` as an association list. -/
abbrev ReverseLookup := List (Label × Nat)

/-- `type ItemsetCounts = HashMap<Itemset, u32>` as an association list. -/
abbrev ItemsetCounts := List (Itemset × Nat)

/-- `type FrequentItemsets = HashMap<usize, ItemsetCounts>` as an
association list keyed by the level size. -/
abbrev FrequentItemsets := List (Nat × ItemsetCounts)

/-- Association-list lookup, modelling `HashMap` key lookup. -/
def lookA {α β : Type} [DecidableEq α] (a : α) : List (α × β) → Option β
  | [] => none
  | p :: ps => if p.1 = a then some p.2 else lookA a ps

@[simp] theorem lookA_nil {α β : Type} [DecidableEq α] (a : α) :
    lookA (β := β) a [] = none := rfl

@[simp] theorem lookA_cons {α β : Type} [DecidableEq α] (a : α) (p : α × β)
    (ps : List (α × β)) :
    lookA a (p :: ps) = if p.1 = a then some p.2 else lookA a ps := rfl

/-- Rust `x.ceil() as u32` for an `f32` value `x`, idealised over `ℤ`:
float-to-integer casts in Rust saturate at the target type's bounds
(negative values go to `0`, values above `u32::MAX` go to `u32::MAX`). -/
def rustCastU32 (x : ℤ) : Nat := min x.toNat (2 ^ 32 - 1)

/-- Rust `x.ceil() as usize` (64-bit target), with the same saturating
semantics as `rustCastU32`. -/
def rustCastUsize (x : ℤ) : Nat := min x.toNat (2 ^ 64 - 1)

/-- The minimum support count computed inside
`generate_frequent_item_counts` (`(min_support * N).ceil() as u32`). -/
def minSupportCountU32 (min_support : ℚ) (N : Nat) : Nat :=
  rustCastU32 ⌈min_support * N⌉

/-- The minimum support count computed inside
`generate_frequent_itemsets` (`(min_support * N).ceil() as usize`). -/
def minSupportCountUsize (min_support : ℚ) (N : Nat) : Nat :=
  rustCastUsize ⌈min_support * N⌉

/-- The spec's ideal threshold `ceil(min_support_fraction × N)` as a
natural number. -/
def idealMinSupportCount (min_support : ℚ) (N : Nat) : Nat :=
  (⌈min_support * N⌉ : ℤ).toNat

/-- State of the indexing pass of `generate_frequent_item_counts`:
the mutable locals `reverse_lookup`, `inventory`, `last_item_id`,
`item_counts`. -/
structure IndexState where
  reverseLookup : ReverseLookup
  inventory : Inventory
  lastItemId : Nat
  itemCounts : ItemCounts
  deriving Repr, DecidableEq

/-- The initial indexing state. -/
def initState : IndexState := ⟨[], [], 0, []⟩

/-- `let count = item_counts.entry(item_id).or_insert(0); *count += 1;` -/
def bumpCount : ItemCounts → Nat → ItemCounts
  | [], id => [(id, 1)]
  | (k, v) :: rest, id =>
      if k = id then (k, v + 1) :: rest else (k, v) :: bumpCount rest id

/-- Processing of one label inside the per-transaction loop of
`generate_frequent_item_counts`: look the label up (inserting a fresh
identifier on first sight), return the updated state and the identifier
pushed onto `items`. -/
def processLabel (st : IndexState) (item : Label) : IndexState × Nat :=
  match lookA item st.reverseLookup with
  | some id => ({ st with itemCounts := bumpCount st.itemCounts id }, id)
  | none =>
      let id := st.lastItemId
      ({ reverseLookup := (item, id) :: st.reverseLookup,
         inventory := (id, item) :: st.inventory,
         lastItemId := id + 1,
         itemCounts := bumpCount st.itemCounts id }, id)

/-- The `for &item in raw_transaction` loop: processes the labels in
iteration order, collecting the pushed identifiers. -/
def processItems (st : IndexState) : List Label → IndexState × List Nat
  | [] => (st, [])
  | l :: rest =>
      let p := processLabel st l
      let q := processItems p.1 rest
      (q.1, p.2 :: q.2)

/-- One raw transaction: collect its identifiers, then
`items.sort_unstable()`. -/
def processTransaction (st : IndexState) (rt : List Label) :
    IndexState × Transaction :=
  let p := processItems st rt
  (p.1, List.insertionSort (· ≤ ·) p.2)

/-- The outer `.map(...).collect()` over all raw transactions. -/
def indexRun (st : IndexState) : List (List Label) →
    IndexState × List Transaction
  | [] => (st, [])
  | rt :: rest =>
      let p := processTransaction st rt
      let q := indexRun p.1 rest
      (q.1, p.2 :: q.2)

/-- `generate_frequent_item_counts`: index and normalize all
transactions, then prune the count mapping by the minimum support
count (computed there as a `u32`). -/
def generate_frequent_item_counts (raw_transactions : List (List Label))
    (min_support : ℚ) : ItemCounts × Inventory × List Transaction :=
  let N := raw_transactions.length
  let min_support_count := minSupportCountU32 min_support N
  let p := indexRun initState raw_transactions
  (p.1.itemCounts.filter (fun q => min_support_count ≤ q.2),
   p.1.inventory, p.2)

/-- `transaction.contains(item)` for every item of the candidate:
`candidate.iter().all(|item| transaction.contains(item))`. -/
def containsAll (t : Transaction) (c : Itemset) : Bool :=
  c.all (fun i => decide (i ∈ t))

/-- The support count of a candidate: the number of transactions that
contain all of its items. -/
def supportCount (transactions : List Transaction) (c : Itemset) : Nat :=
  (transactions.filter (fun t => containsAll t c)).length

/-- `item_counts.keys().combinations(2)` over the key list: all pairs
`[x, y]` with `x` occurring before `y`. -/
def combinations2 : List Nat → List (List Nat)
  | [] => []
  | x :: xs => xs.map (fun y => [x, y]) ++ combinations2 xs

/-- `yo`: count each 2-combination candidate over the (length-filtered)
transactions, keep those meeting the minimum support count, sorting
each kept candidate (`freq.sort_unstable()`). -/
def yo (keys : List Nat) (transactions : List Transaction)
    (min_support_count : Nat) : ItemsetCounts :=
  (combinations2 keys).filterMap (fun candidate =>
    let candidate_count := supportCount transactions candidate
    if min_support_count ≤ candidate_count then
      some (List.insertionSort (· ≤ ·) candidate, candidate_count)
    else none)

/-- `generate_frequent_itemset_counts_from_candidates`: count each
candidate, keep those meeting the minimum support count. -/
def generate_frequent_itemset_counts_from_candidates
    (candidate_counts : List Itemset) (transactions : List Transaction)
    (min_support_count : Nat) : ItemsetCounts :=
  candidate_counts.filterMap (fun candidate =>
    let candidate_count := supportCount transactions candidate
    if min_support_count ≤ candidate_count then
      some (candidate, candidate_count)
    else none)

/-- All sublists obtained by removing exactly one element. -/
def subsetsRemoveOne : List Nat → List (List Nat)
  | [] => []
  | x :: xs => xs :: (subsetsRemoveOne xs).map (fun s => x :: s)

/-- Modelled from the spec: `join_step` lives in the crate module
`combi`, which is not under `src/`; §4.2 of the spec describes it as
the Apriori join — two (k-1)-itemsets that agree on their first k-2
elements and differ in the last element are unioned into a single
k-itemset candidate — whose output is deduplicated and satisfies the
anti-monotone contract that every (k-1)-subset of an emitted candidate
is present among the input itemsets (subset-pruning). -/
def join_step (prev : List Itemset) : List Itemset :=
  (((prev.product prev).filterMap (fun ab =>
      if ab.1.dropLast = ab.2.dropLast ∧
         ab.1.getLastD 0 < ab.2.getLastD 0 then
        some (ab.1 ++ [ab.2.getLastD 0])
      else none)).filter (fun c =>
        (subsetsRemoveOne c).all (fun s => decide (s ∈ prev)))).dedup

/-- `generate_candidates_from_prev`: join the previous level's keys. -/
def generate_candidates_from_prev (prev_frequent_itemsets : ItemsetCounts) :
    List Itemset :=
  join_step (prev_frequent_itemsets.map Prod.fst)

/-- `convert_to_itemset_counts`: wrap each item id as a singleton. -/
def convert_to_itemset_counts (item_counts : ItemCounts) : ItemsetCounts :=
  item_counts.map (fun p => ([p.1], p.2))

/-- The `for size in 3..=k` loop of `generate_frequent_itemsets`.
`fuel` is the number of remaining iterations (`k - 2`), `size` the
current level.  Each iteration retains the transactions of length
`≥ size`, looks up level `size - 1` in the accumulated results
(the Rust map index `all_frequent_itemsets[&(size - 1)]`, modelled
with default `[]`; `levelLoopP` below models the panicking lookup),
generates candidates and inserts the counted level. -/
def levelLoop (min_support_count : Nat) :
    Nat → Nat → List Transaction → FrequentItemsets → FrequentItemsets
  | 0, _, _, levels => levels
  | fuel + 1, size, transactions, levels =>
      let transactions' := transactions.filter (fun t => size ≤ t.length)
      let prev := (lookA (size - 1) levels).getD []
      let candidates := generate_candidates_from_prev prev
      let freq := generate_frequent_itemset_counts_from_candidates
        candidates transactions' min_support_count
      levelLoop min_support_count fuel (size + 1) transactions'
        (levels ++ [(size, freq)])

/-- `generate_frequent_itemsets`: the level driver. -/
def generate_frequent_itemsets (raw_transactions : List (List Label))
    (min_support : ℚ) (k : Nat) : FrequentItemsets × Inventory :=
  let N := raw_transactions.length
  let min_support_count := minSupportCountUsize min_support N
  let p := generate_frequent_item_counts raw_transactions min_support
  let item_counts := p.1
  let inventory := p.2.1
  let transactions := p.2.2
  if k = 1 then
    ([(1, convert_to_itemset_counts item_counts)], inventory)
  else
    let transactions2 := transactions.filter (fun t => 2 ≤ t.length)
    let frequent2 := yo (item_counts.map Prod.fst) transactions2
      min_support_count
    (levelLoop min_support_count (k - 2) 3 transactions2
      [(1, convert_to_itemset_counts item_counts), (2, frequent2)],
     inventory)

/-- The per-level result mapping of a run. -/
def resultLevels (raw_transactions : List (List Label)) (min_support : ℚ)
    (k : Nat) : FrequentItemsets :=
  (generate_frequent_itemsets raw_transactions min_support k).1

/-- The unfiltered normalized transaction collection of a run (the
third component returned by `generate_frequent_item_counts`). -/
def normTxs (raw_transactions : List (List Label)) (min_support : ℚ) :
    List Transaction :=
  (generate_frequent_item_counts raw_transactions min_support).2.2

/-! ### Panic-aware variants

The source contains two partial operations: the
`reverse_lookup.get(&item).unwrap()` reached when `contains_key`
succeeded, and the map index `all_frequent_itemsets[&(size - 1)]` in
the level loop, which panics when the key is absent.  The following
variants return `none` exactly when such a panic would occur; claim C9
states that they always return `some` of the total model's value. -/

/-- `processLabel` with the guarded `get(..).unwrap()` modelled as a
fallible operation: `none` is the panic of `unwrap`. -/
def processLabelP (st : IndexState) (item : Label) :
    Option (IndexState × Nat) :=
  if (lookA item st.reverseLookup).isSome then
    (lookA item st.reverseLookup).map
      (fun id => ({ st with itemCounts := bumpCount st.itemCounts id }, id))
  else
    some ({ reverseLookup := (item, st.lastItemId) :: st.reverseLookup,
            inventory := (st.lastItemId, item) :: st.inventory,
            lastItemId := st.lastItemId + 1,
            itemCounts := bumpCount st.itemCounts st.lastItemId },
          st.lastItemId)

/-- Panic-aware `processItems`. -/
def processItemsP (st : IndexState) :
    List Label → Option (IndexState × List Nat)
  | [] => some (st, [])
  | l :: rest => do
      let p ← processLabelP st l
      let q ← processItemsP p.1 rest
      some (q.1, p.2 :: q.2)

/-- Panic-aware `processTransaction`. -/
def processTransactionP (st : IndexState) (rt : List Label) :
    Option (IndexState × Transaction) := do
  let p ← processItemsP st rt
  some (p.1, List.insertionSort (· ≤ ·) p.2)

/-- Panic-aware `indexRun`. -/
def indexRunP (st : IndexState) :
    List (List Label) → Option (IndexState × List Transaction)
  | [] => some (st, [])
  | rt :: rest => do
      let p ← processTransactionP st rt
      let q ← indexRunP p.1 rest
      some (q.1, p.2 :: q.2)

/-- Panic-aware `generate_frequent_item_counts`. -/
def generate_frequent_item_countsP (raw_transactions : List (List Label))
    (min_support : ℚ) :
    Option (ItemCounts × Inventory × List Transaction) := do
  let N := raw_transactions.length
  let min_support_count := minSupportCountU32 min_support N
  let p ← indexRunP initState raw_transactions
  some (p.1.itemCounts.filter (fun q => min_support_count ≤ q.2),
        p.1.inventory, p.2)

/-- Panic-aware level loop: the map index
`all_frequent_itemsets[&(size - 1)]` is a lookup that panics (`none`)
when the key is absent. -/
def levelLoopP (min_support_count : Nat) :
    Nat → Nat → List Transaction → FrequentItemsets →
    Option FrequentItemsets
  | 0, _, _, levels => some levels
  | fuel + 1, size, transactions, levels =>
      let transactions' := transactions.filter (fun t => size ≤ t.length)
      match lookA (size - 1) levels with
      | none => none
      | some prev =>
          let candidates := generate_candidates_from_prev prev
          let freq := generate_frequent_itemset_counts_from_candidates
            candidates transactions' min_support_count
          levelLoopP min_support_count fuel (size + 1) transactions'
            (levels ++ [(size, freq)])

/-- Panic-aware `generate_frequent_itemsets`. -/
def generate_frequent_itemsetsP (raw_transactions : List (List Label))
    (min_support : ℚ) (k : Nat) :
    Option (FrequentItemsets × Inventory) := do
  let N := raw_transactions.length
  let min_support_count := minSupportCountUsize min_support N
  let p ← generate_frequent_item_countsP raw_transactions min_support
  let item_counts := p.1
  let inventory := p.2.1
  let transactions := p.2.2
  if k = 1 then
    some ([(1, convert_to_itemset_counts item_counts)], inventory)
  else
    let transactions2 := transactions.filter (fun t => 2 ≤ t.length)
    let frequent2 := yo (item_counts.map Prod.fst) transactions2
      min_support_count
    let levels ← levelLoopP min_support_count (k - 2) 3 transactions2
      [(1, convert_to_itemset_counts item_counts), (2, frequent2)]
    some (levels, inventory)

/-! ### Wrapping `u32` variants

The definitions above idealise the `u32` support counters as unbounded
naturals.  The `..W` variants below model the `u32` arithmetic of the
source exactly: the increment `*count += 1` wraps modulo `2^32`
(release-build overflow semantics), and the truncating integer cast
`candidate_count as u32` stores the count modulo `2^32`.  Everything
else is identical.  The bridge theorems below prove the two models
equal whenever the input has fewer than `2^32` transactions. -/

/-- `*count += 1` on a `u32` counter: wrapping increment
(`or_insert(0)` then `+1`, which cannot wrap on a fresh entry). -/
def bumpCountW : ItemCounts → Nat → ItemCounts
  | [], id => [(id, 1)]
  | (k, v) :: rest, id =>
      if k = id then (k, (v + 1) % 2 ^ 32) :: rest
      else (k, v) :: bumpCountW rest id

/-- `processLabel` with the wrapping `u32` counter. -/
def processLabelW (st : IndexState) (item : Label) : IndexState × Nat :=
  match lookA item st.reverseLookup with
  | some id => ({ st with itemCounts := bumpCountW st.itemCounts id }, id)
  | none =>
      let id := st.lastItemId
      ({ reverseLookup := (item, id) :: st.reverseLookup,
         inventory := (id, item) :: st.inventory,
         lastItemId := id + 1,
         itemCounts := bumpCountW st.itemCounts id }, id)

/-- `processItems` with the wrapping `u32` counter. -/
def processItemsW (st : IndexState) : List Label → IndexState × List Nat
  | [] => (st, [])
  | l :: rest =>
      let p := processLabelW st l
      let q := processItemsW p.1 rest
      (q.1, p.2 :: q.2)

/-- `processTransaction` with the wrapping `u32` counter. -/
def processTransactionW (st : IndexState) (rt : List Label) :
    IndexState × Transaction :=
  let p := processItemsW st rt
  (p.1, List.insertionSort (· ≤ ·) p.2)

/-- `indexRun` with the wrapping `u32` counter. -/
def indexRunW (st : IndexState) : List (List Label) →
    IndexState × List Transaction
  | [] => (st, [])
  | rt :: rest =>
      let p := processTransactionW st rt
      let q := indexRunW p.1 rest
      (q.1, p.2 :: q.2)

/-- `generate_frequent_item_counts` with the wrapping `u32` counter. -/
def generate_frequent_item_countsW (raw_transactions : List (List Label))
    (min_support : ℚ) : ItemCounts × Inventory × List Transaction :=
  let N := raw_transactions.length
  let min_support_count := minSupportCountU32 min_support N
  let p := indexRunW initState raw_transactions
  (p.1.itemCounts.filter (fun q => min_support_count ≤ q.2),
   p.1.inventory, p.2)

/-- `yo` with the truncating `candidate_count as u32` store (the
threshold comparison happens on the untruncated `usize` count, the
stored value is the truncated `u32`). -/
def yoW (keys : List Nat) (transactions : List Transaction)
    (min_support_count : Nat) : ItemsetCounts :=
  (combinations2 keys).filterMap (fun candidate =>
    let candidate_count := supportCount transactions candidate
    if min_support_count ≤ candidate_count then
      some (List.insertionSort (· ≤ ·) candidate,
        candidate_count % 2 ^ 32)
    else none)

/-- `generate_frequent_itemset_counts_from_candidates` with the
truncating `candidate_count as u32` store. -/
def generate_frequent_itemset_counts_from_candidatesW
    (candidate_counts : List Itemset) (transactions : List Transaction)
    (min_support_count : Nat) : ItemsetCounts :=
  candidate_counts.filterMap (fun candidate =>
    let candidate_count := supportCount transactions candidate
    if min_support_count ≤ candidate_count then
      some (candidate, candidate_count % 2 ^ 32)
    else none)

/-- The `for size in 3..=k` loop with the truncating `u32` store. -/
def levelLoopW (min_support_count : Nat) :
    Nat → Nat → List Transaction → FrequentItemsets → FrequentItemsets
  | 0, _, _, levels => levels
  | fuel + 1, size, transactions, levels =>
      let transactions' := transactions.filter (fun t => size ≤ t.length)
      let prev := (lookA (size - 1) levels).getD []
      let candidates := generate_candidates_from_prev prev
      let freq := generate_frequent_itemset_counts_from_candidatesW
        candidates transactions' min_support_count
      levelLoopW min_support_count fuel (size + 1) transactions'
        (levels ++ [(size, freq)])

/-- `generate_frequent_itemsets` with wrapping/truncating `u32`
count arithmetic. -/
def generate_frequent_itemsetsW (raw_transactions : List (List Label))
    (min_support : ℚ) (k : Nat) : FrequentItemsets × Inventory :=
  let N := raw_transactions.length
  let min_support_count := minSupportCountUsize min_support N
  let p := generate_frequent_item_countsW raw_transactions min_support
  let item_counts := p.1
  let inventory := p.2.1
  let transactions := p.2.2
  if k = 1 then
    ([(1, convert_to_itemset_counts item_counts)], inventory)
  else
    let transactions2 := transactions.filter (fun t => 2 ≤ t.length)
    let frequent2 := yoW (item_counts.map Prod.fst) transactions2
      min_support_count
    (levelLoopW min_support_count (k - 2) 3 transactions2
      [(1, convert_to_itemset_counts item_counts), (2, frequent2)],
     inventory)

/-- The per-level result mapping of the wrapping model. -/
def resultLevelsW (raw_transactions : List (List Label)) (min_support : ℚ)
    (k : Nat) : FrequentItemsets :=
  (generate_frequent_itemsetsW raw_transactions min_support k).1

/-- The unfiltered normalized transactions of the wrapping model
(identical to `normTxs`: wrapping only touches counts). -/
def normTxsW (raw_transactions : List (List Label)) (min_support : ℚ) :
    List Transaction :=
  (generate_frequent_item_countsW raw_transactions min_support).2.2

/-- Pointwise `mod 2^32` on a count table. -/
def wrapCounts (counts : ItemCounts) : ItemCounts :=
  counts.map (fun p => (p.1, p.2 % 2 ^ 32))

/-- Pointwise `mod 2^32` on a state's count table. -/
def wrapState (st : IndexState) : IndexState :=
  ⟨st.reverseLookup, st.inventory, st.lastItemId,
   wrapCounts st.itemCounts⟩

/-- `q` is a finite `f32` value: an integer significand of magnitude
below `2^24` scaled by a power of two no smaller than `2^(-149)` (the
least subnormal unit), with magnitude below `2^128`.  This is exactly
the set of finite IEEE-754 binary32 values. -/
def repF32 (q : ℚ) : Prop :=
  ∃ m : ℤ, ∃ e : ℤ, q = (m : ℚ) * 2 ^ e ∧ m.natAbs < 2 ^ 24 ∧
    -149 ≤ e ∧ |q| < 2 ^ 128

/-- Well-formedness of an indexing state: the two lookup tables are
functional and mutually inverse, identifiers are below the running
counter, and the count table's keys are assigned identifiers. -/
structure RlOk (st : IndexState) : Prop where
  keysNodup : (st.reverseLookup.map Prod.fst).Nodup
  valsNodup : (st.reverseLookup.map Prod.snd).Nodup
  valsLt : ∀ p ∈ st.reverseLookup, p.2 < st.lastItemId
  invFlip : ∀ id l, (id, l) ∈ st.inventory ↔ (l, id) ∈ st.reverseLookup
  countsKeysNodup : (st.itemCounts.map Prod.fst).Nodup
  countsDom : ∀ p ∈ st.itemCounts, p.1 ∈ st.reverseLookup.map Prod.snd

/-- One indexing state extends another: the lookup tables only grow
(by consing new entries) and the identifier counter never decreases. -/
structure Extends (st st' : IndexState) : Prop where
  rlPre : ∃ pre, st'.reverseLookup = pre ++ st.reverseLookup
  invPre : ∃ pre, st'.inventory = pre ++ st.inventory
  lastLe : st.lastItemId ≤ st'.lastItemId

/-! ### Association-list lemmas -/

theorem mem_of_lookA_eq_some {α β : Type} [DecidableEq α]
    {l : List (α × β)} {a : α} {b : β} (h : lookA a l = some b) :
    (a, b) ∈ l := by
  induction l with
  | nil => simp at h
  | cons p ps ih =>
      obtain ⟨x, y⟩ := p
      simp only [lookA_cons] at h
      by_cases hp : x = a
      · rw [if_pos hp] at h
        obtain rfl : y = b := by simpa using h
        subst hp
        exact List.mem_cons_self _ _
      · rw [if_neg hp] at h
        exact List.mem_cons_of_mem _ (ih h)

theorem lookA_eq_some_of_mem {α β : Type} [DecidableEq α]
    {l : List (α × β)} (hnd : (l.map Prod.fst).Nodup) {a : α} {b : β}
    (hm : (a, b) ∈ l) : lookA a l = some b := by
  induction l with
  | nil => simp at hm
  | cons p ps ih =>
      simp only [List.map_cons, List.nodup_cons] at hnd
      rcases List.mem_cons.mp hm with h | h
      · simp [← h]
      · have hne : p.1 ≠ a := by
          intro hpa
          exact hnd.1 (hpa ▸ (List.mem_map.mpr ⟨(a, b), h, rfl⟩))
        simp [hne, ih hnd.2 h]

theorem lookA_eq_none_iff {α β : Type} [DecidableEq α]
    {l : List (α × β)} {a : α} :
    lookA a l = none ↔ a ∉ l.map Prod.fst := by
  induction l with
  | nil => simp
  | cons p ps ih =>
      by_cases hp : p.1 = a
      · simp [hp]
      · simp [hp, ih, Ne.symm hp]

theorem lookA_isSome_of_mem_keys {α β : Type} [DecidableEq α]
    {l : List (α × β)} {a : α} (h : a ∈ l.map Prod.fst) :
    ∃ b, lookA a l = some b := by
  cases hl : lookA a l with
  | none => exact absurd (lookA_eq_none_iff.mp hl) (not_not_intro h)
  | some b => exact ⟨b, rfl⟩

theorem keys_mem_of_mem {α β : Type} {l : List (α × β)} {p : α × β}
    (h : p ∈ l) : p.1 ∈ l.map Prod.fst :=
  List.mem_map.mpr ⟨p, h, rfl⟩

theorem lookA_append_left {α β : Type} [DecidableEq α]
    {l₁ l₂ : List (α × β)} {a : α} {b : β} (h : lookA a l₁ = some b) :
    lookA a (l₁ ++ l₂) = some b := by
  induction l₁ with
  | nil => simp at h
  | cons p ps ih =>
      simp only [lookA_cons] at h
      simp only [List.cons_append, lookA_cons]
      by_cases hp : p.1 = a
      · rw [if_pos hp] at h
        rw [if_pos hp]
        exact h
      · rw [if_neg hp] at h
        rw [if_neg hp]
        exact ih h

theorem lookA_append_right {α β : Type} [DecidableEq α]
    {l₁ l₂ : List (α × β)} {a : α} (h : a ∉ l₁.map Prod.fst) :
    lookA a (l₁ ++ l₂) = lookA a l₂ := by
  induction l₁ with
  | nil => simp
  | cons p ps ih =>
      simp only [List.map_cons, List.mem_cons] at h
      push_neg at h
      simp only [List.cons_append, lookA_cons]
      rw [if_neg (fun e => h.1 e.symm)]
      exact ih h.2

theorem vals_nodup_inj {α β : Type} {l : List (α × β)}
    (h : (l.map Prod.snd).Nodup) {a a' : α} {b : β}
    (h1 : (a, b) ∈ l) (h2 : (a', b) ∈ l) : a = a' := by
  induction l with
  | nil => simp at h1
  | cons p ps ih =>
      simp only [List.map_cons, List.nodup_cons] at h
      rcases List.mem_cons.mp h1 with e1 | m1 <;>
        rcases List.mem_cons.mp h2 with e2 | m2
      · have h12 : (a, b) = (a', b) := e1.trans e2.symm
        exact ((Prod.mk.injEq _ _ _ _).mp h12).1
      · exfalso
        apply h.1
        have hb : b = p.2 := congrArg Prod.snd e1
        rw [← hb]
        exact List.mem_map.mpr ⟨(a', b), m2, rfl⟩
      · exfalso
        apply h.1
        have hb : b = p.2 := congrArg Prod.snd e2
        rw [← hb]
        exact List.mem_map.mpr ⟨(a, b), m1, rfl⟩
      · exact ih h.2 m1 m2

/-! ### `bumpCount` lemmas -/

theorem bumpCount_lookA_self (cs : ItemCounts) (id : Nat) :
    lookA id (bumpCount cs id) = some ((lookA id cs).getD 0 + 1) := by
  induction cs with
  | nil => simp [bumpCount]
  | cons p ps ih =>
      obtain ⟨k, v⟩ := p
      by_cases hp : k = id
      · subst hp
        simp [bumpCount]
      · simp only [bumpCount, if_neg hp, lookA_cons]
        exact ih

theorem bumpCount_lookA_other (cs : ItemCounts) {id j : Nat}
    (h : j ≠ id) : lookA j (bumpCount cs id) = lookA j cs := by
  have hij : ¬ id = j := fun e => h e.symm
  induction cs with
  | nil => simp [bumpCount, hij]
  | cons p ps ih =>
      obtain ⟨k, v⟩ := p
      by_cases hp : k = id
      · subst hp
        simp [bumpCount, hij]
      · simp only [bumpCount, if_neg hp, lookA_cons]
        by_cases hkj : k = j
        · rw [if_pos hkj, if_pos hkj]
        · rw [if_neg hkj, if_neg hkj]
          exact ih

theorem bumpCount_keys (cs : ItemCounts) (id : Nat) :
    (bumpCount cs id).map Prod.fst =
      if id ∈ cs.map Prod.fst then cs.map Prod.fst
      else cs.map Prod.fst ++ [id] := by
  induction cs with
  | nil => simp [bumpCount]
  | cons p ps ih =>
      obtain ⟨k, v⟩ := p
      by_cases hp : k = id
      · subst hp
        simp [bumpCount]
      · simp only [bumpCount, if_neg hp, List.map_cons, ih]
        by_cases hm : id ∈ ps.map Prod.fst
        · simp [hm, Ne.symm hp]
        · simp [hm, Ne.symm hp]

theorem bumpCount_keys_nodup {cs : ItemCounts}
    (h : (cs.map Prod.fst).Nodup) (id : Nat) :
    ((bumpCount cs id).map Prod.fst).Nodup := by
  rw [bumpCount_keys]
  by_cases hm : id ∈ cs.map Prod.fst
  · simpa [hm] using h
  · simp only [hm, if_false]
    exact List.Nodup.append h (List.nodup_singleton id) (by simpa using hm)

theorem bumpCount_mem_keys {cs : ItemCounts} {j : Nat} (id : Nat)
    (h : j ∈ (bumpCount cs id).map Prod.fst) :
    j ∈ cs.map Prod.fst ∨ j = id := by
  rw [bumpCount_keys] at h
  by_cases hm : id ∈ cs.map Prod.fst
  · rw [if_pos hm] at h
    exact Or.inl h
  · rw [if_neg hm] at h
    simpa using h

/-! ### Filter and `supportCount` lemmas -/

theorem length_filter_eq_of_forall₂ {α β : Type} {p : α → Bool}
    {q : β → Bool} : ∀ {l₁ : List α} {l₂ : List β},
    List.Forall₂ (fun a b => p a = true ↔ q b = true) l₁ l₂ →
    (l₁.filter p).length = (l₂.filter q).length := by
  intro l₁ l₂ h
  induction h with
  | nil => rfl
  | cons hab _ ih =>
      rename_i a b l₁' l₂' _
      by_cases hpa : p a = true
      · rw [List.filter_cons, List.filter_cons, if_pos hpa,
          if_pos (hab.mp hpa)]
        simpa using ih
      · have hqb : ¬ q b = true := fun hb => hpa (hab.mpr hb)
        rw [List.filter_cons, List.filter_cons, if_neg hpa, if_neg hqb]
        exact ih

theorem length_filter_le_of_imp {α : Type} {p q : α → Bool} :
    ∀ {l : List α}, (∀ x ∈ l, p x = true → q x = true) →
    (l.filter p).length ≤ (l.filter q).length := by
  intro l
  induction l with
  | nil => intro _; simp
  | cons x xs ih =>
      intro h
      rw [List.filter_cons, List.filter_cons]
      by_cases hx : p x = true
      · rw [if_pos hx, if_pos (h x (List.mem_cons_self _ _) hx)]
        simpa using ih (fun y hy => h y (List.mem_cons_of_mem _ hy))
      · rw [if_neg hx]
        refine le_trans (ih (fun y hy => h y (List.mem_cons_of_mem _ hy))) ?_
        split <;> simp

theorem containsAll_iff {t : Transaction} {c : Itemset} :
    containsAll t c = true ↔ ∀ i ∈ c, i ∈ t := by
  simp [containsAll]

theorem supportCount_eq_of_mem_iff {c c' : Itemset}
    (h : ∀ i, i ∈ c ↔ i ∈ c') (txs : List Transaction) :
    supportCount txs c = supportCount txs c' := by
  unfold supportCount
  congr 1
  apply List.filter_congr
  intro t _
  by_cases hc : containsAll t c = true
  · rw [hc, (containsAll_iff.mpr (fun i hi => containsAll_iff.mp hc i ((h i).mpr hi)))]
  · have : ¬ containsAll t c' = true := fun hc' =>
      hc (containsAll_iff.mpr (fun i hi => containsAll_iff.mp hc' i ((h i).mp hi)))
    rw [Bool.eq_false_iff.mpr hc, Bool.eq_false_iff.mpr this]

theorem supportCount_anti {s c : Itemset} (h : ∀ i ∈ s, i ∈ c)
    (txs : List Transaction) :
    supportCount txs c ≤ supportCount txs s := by
  unfold supportCount
  apply length_filter_le_of_imp
  intro t _ ht
  exact containsAll_iff.mpr (fun i hi => containsAll_iff.mp ht i (h i hi))

theorem length_le_of_containsAll {t : Transaction} {c : Itemset}
    (hnd : c.Nodup) (h : containsAll t c = true) : c.length ≤ t.length := by
  have hsub : c.toFinset ⊆ t.toFinset := by
    intro i hi
    exact List.mem_toFinset.mpr (containsAll_iff.mp h i (List.mem_toFinset.mp hi))
  calc c.length = c.toFinset.card := (List.toFinset_card_of_nodup hnd).symm
    _ ≤ t.toFinset.card := Finset.card_le_card hsub
    _ ≤ t.length := List.toFinset_card_le t

theorem supportCount_filter_length {txs : List Transaction} {c : Itemset}
    {n : Nat} (hnd : c.Nodup) (hn : n ≤ c.length) :
    supportCount (txs.filter (fun t => n ≤ t.length)) c =
      supportCount txs c := by
  unfold supportCount
  rw [List.filter_filter]
  congr 1
  apply List.filter_congr
  intro t _
  by_cases hc : containsAll t c = true
  · have : n ≤ t.length := le_trans hn (length_le_of_containsAll hnd hc)
    simp [hc, this]
  · simp [Bool.eq_false_iff.mpr hc]

theorem filter_length_absorb {txs : List Transaction} {m n : Nat}
    (h : m ≤ n) :
    (txs.filter (fun t => m ≤ t.length)).filter (fun t => n ≤ t.length) =
      txs.filter (fun t => n ≤ t.length) := by
  rw [List.filter_filter]
  apply List.filter_congr
  intro t _
  by_cases hn : n ≤ t.length
  · simp [hn, le_trans h hn]
  · simp [hn]

/-! ### Sorted pair lemmas -/

theorem insertionSort_pair (a b : Nat) :
    List.insertionSort (· ≤ ·) [a, b] =
      if a ≤ b then [a, b] else [b, a] := by
  by_cases h : a ≤ b <;> simp [List.insertionSort, List.orderedInsert, h]

theorem insertionSort_pair_mem (a b x : Nat) :
    x ∈ List.insertionSort (· ≤ ·) [a, b] ↔ x = a ∨ x = b := by
  rw [List.mem_insertionSort]
  simp

theorem insertionSort_pair_length (a b : Nat) :
    (List.insertionSort (· ≤ ·) [a, b]).length = 2 := by
  rw [insertionSort_pair]
  split <;> rfl

theorem insertionSort_pair_nodup {a b : Nat} (h : a ≠ b) :
    (List.insertionSort (· ≤ ·) [a, b]).Nodup := by
  rw [insertionSort_pair]
  split <;> simp [h, Ne.symm h]

theorem insertionSort_pair_sorted (a b : Nat) :
    (List.insertionSort (· ≤ ·) [a, b]).Sorted (· ≤ ·) :=
  List.sorted_insertionSort _ _

/-! ### `combinations2` lemmas -/

theorem mem_combinations2_nodup : ∀ {l : List Nat}, l.Nodup →
    ∀ {c : List Nat}, c ∈ combinations2 l →
    ∃ a b, c = [a, b] ∧ a ∈ l ∧ b ∈ l ∧ a ≠ b := by
  intro l
  induction l with
  | nil => intro _ c hc; simp [combinations2] at hc
  | cons x xs ih =>
      intro hnd c hc
      simp only [combinations2, List.mem_append, List.mem_map] at hc
      simp only [List.nodup_cons] at hnd
      rcases hc with ⟨y, hy, rfl⟩ | hc
      · exact ⟨x, y, rfl, List.mem_cons_self _ _,
          List.mem_cons_of_mem _ hy, fun e => hnd.1 (e ▸ hy)⟩
      · obtain ⟨a, b, rfl, ha, hb, hab⟩ := ih hnd.2 hc
        exact ⟨a, b, rfl, List.mem_cons_of_mem _ ha,
          List.mem_cons_of_mem _ hb, hab⟩

theorem combinations2_complete : ∀ {l : List Nat} {a b : Nat},
    a ∈ l → b ∈ l → a ≠ b →
    [a, b] ∈ combinations2 l ∨ [b, a] ∈ combinations2 l := by
  intro l
  induction l with
  | nil => intro a b ha; simp at ha
  | cons x xs ih =>
      intro a b ha hb hab
      rcases List.mem_cons.mp ha with rfl | ha'
      · have hb' : b ∈ xs := by
          rcases List.mem_cons.mp hb with rfl | h
          · exact absurd rfl hab
          · exact h
        left
        simp only [combinations2, List.mem_append, List.mem_map]
        exact Or.inl ⟨b, hb', rfl⟩
      · rcases List.mem_cons.mp hb with rfl | hb'
        · right
          simp only [combinations2, List.mem_append, List.mem_map]
          exact Or.inl ⟨a, ha', rfl⟩
        · rcases ih ha' hb' hab with h | h
          · left
            simp only [combinations2, List.mem_append]
            exact Or.inr h
          · right
            simp only [combinations2, List.mem_append]
            exact Or.inr h

/-! ### `subsetsRemoveOne` lemmas -/

theorem mem_subsetsRemoveOne_sublist : ∀ {c s : List Nat},
    s ∈ subsetsRemoveOne c → List.Sublist s c ∧ s.length + 1 = c.length := by
  intro c
  induction c with
  | nil => intro s hs; simp [subsetsRemoveOne] at hs
  | cons x xs ih =>
      intro s hs
      simp only [subsetsRemoveOne, List.mem_cons, List.mem_map] at hs
      rcases hs with rfl | ⟨s', hs', rfl⟩
      · exact ⟨List.sublist_cons_self x s, by simp⟩
      · obtain ⟨hsub, hlen⟩ := ih hs'
        exact ⟨List.Sublist.cons₂ x hsub, by simpa using hlen⟩

theorem sublist_mem_subsetsRemoveOne : ∀ {c s : List Nat},
    List.Sublist s c → s.length + 1 = c.length → s ∈ subsetsRemoveOne c := by
  intro c
  induction c with
  | nil => intro s hs hlen; simp at hlen
  | cons x xs ih =>
      intro s hs hlen
      cases hs with
      | cons h =>
          rename_i h
          have : s = xs := List.Sublist.eq_of_length h (by simpa using hlen)
          subst this
          simp [subsetsRemoveOne]
      | cons₂ h =>
          rename_i s' h
          simp only [List.length_cons] at hlen
          have hmem := ih h (by omega)
          simp only [subsetsRemoveOne, List.mem_cons, List.mem_map]
          exact Or.inr ⟨s', hmem, rfl⟩

/-! ### `join_step` lemmas -/

theorem getLastD_mem : ∀ {l : List Nat} (d : Nat), l ≠ [] →
    l.getLastD d ∈ l := by
  intro l
  induction l with
  | nil => intro d h; exact absurd rfl h
  | cons x xs ih =>
      intro d _
      rw [List.getLastD_cons]
      cases hxs : xs with
      | nil => simp
      | cons y ys =>
          have := ih x (by simp [hxs])
          rw [hxs] at this
          exact List.mem_cons_of_mem _ (hxs ▸ this)

theorem sorted_le_getLastD : ∀ {l : List Nat},
    l.Sorted (· ≤ ·) → ∀ {x : Nat}, x ∈ l → ∀ (d : Nat),
    x ≤ l.getLastD d := by
  intro l
  induction l with
  | nil => intro _ x hx; simp at hx
  | cons y ys ih =>
      intro hs x hx d
      rw [List.getLastD_cons]
      rcases List.mem_cons.mp hx with rfl | hx'
      · cases ys with
        | nil => simp
        | cons z zs =>
            have hmem : (z :: zs).getLastD x ∈ z :: zs := getLastD_mem x (by simp)
            exact List.rel_of_sorted_cons hs _ hmem
      · exact ih hs.of_cons hx' y

theorem mem_join_step {prev : List Itemset} {c : Itemset}
    (hc : c ∈ join_step prev) :
    (∃ a lb, a ∈ prev ∧ c = a ++ [lb] ∧ a.getLastD 0 < lb) ∧
      (∀ s ∈ subsetsRemoveOne c, s ∈ prev) := by
  unfold join_step at hc
  rw [List.mem_dedup, List.mem_filter] at hc
  obtain ⟨hmem, hfilter⟩ := hc
  rw [List.mem_filterMap] at hmem
  obtain ⟨⟨a, b⟩, hab, heq⟩ := hmem
  constructor
  · by_cases hcond : a.dropLast = b.dropLast ∧ a.getLastD 0 < b.getLastD 0
    · rw [if_pos hcond] at heq
      obtain rfl : a ++ [b.getLastD 0] = c := by simpa using heq
      exact ⟨a, b.getLastD 0, (List.mem_product.mp hab).1, rfl, hcond.2⟩
    · rw [if_neg hcond] at heq
      simp at heq
  · intro s hs
    have := List.all_eq_true.mp hfilter s hs
    simpa using this

theorem join_step_good {prev : List Itemset} {n : Nat}
    (hprev : ∀ p ∈ prev, p.length = n ∧ p.Nodup ∧ p.Sorted (· ≤ ·))
    {c : Itemset} (hc : c ∈ join_step prev) :
    c.length = n + 1 ∧ c.Nodup ∧ c.Sorted (· ≤ ·) := by
  obtain ⟨⟨a, lb, ha, rfl, hlt⟩, _⟩ := mem_join_step hc
  obtain ⟨halen, hand, hasort⟩ := hprev a ha
  have hbound : ∀ x ∈ a, x < lb := by
    intro x hx
    exact lt_of_le_of_lt (sorted_le_getLastD hasort hx 0) hlt
  refine ⟨by simp [halen], ?_, ?_⟩
  · rw [List.nodup_append]
    refine ⟨hand, List.nodup_singleton _, ?_⟩
    intro x hx hy
    rw [List.mem_singleton] at hy
    subst hy
    exact lt_irrefl _ (hbound _ hx)
  · unfold List.Sorted
    rw [List.pairwise_append]
    refine ⟨hasort, List.pairwise_singleton _ _, ?_⟩
    intro x hx y hy
    rw [List.mem_singleton] at hy
    subst hy
    exact le_of_lt (hbound x hx)

/-! ### Indexing-state lemmas -/

theorem extends_refl (st : IndexState) : Extends st st :=
  ⟨⟨[], rfl⟩, ⟨[], rfl⟩, le_refl _⟩

theorem extends_trans {s1 s2 s3 : IndexState} (h1 : Extends s1 s2)
    (h2 : Extends s2 s3) : Extends s1 s3 := by
  obtain ⟨⟨p1, hp1⟩, ⟨q1, hq1⟩, hl1⟩ := h1
  obtain ⟨⟨p2, hp2⟩, ⟨q2, hq2⟩, hl2⟩ := h2
  exact ⟨⟨p2 ++ p1, by rw [hp2, hp1, List.append_assoc]⟩,
    ⟨q2 ++ q1, by rw [hq2, hq1, List.append_assoc]⟩, le_trans hl1 hl2⟩

theorem extends_rl_mem {st st' : IndexState} (h : Extends st st')
    {p : Label × Nat} (hm : p ∈ st.reverseLookup) :
    p ∈ st'.reverseLookup := by
  obtain ⟨pre, hpre⟩ := h.rlPre
  rw [hpre]
  exact List.mem_append_right _ hm

theorem extends_inv_mem {st st' : IndexState} (h : Extends st st')
    {p : Nat × Label} (hm : p ∈ st.inventory) : p ∈ st'.inventory := by
  obtain ⟨pre, hpre⟩ := h.invPre
  rw [hpre]
  exact List.mem_append_right _ hm

theorem extends_lookA_mono {st st' : IndexState} (h : Extends st st')
    (hok' : RlOk st') {l : Label} {i : Nat}
    (hl : lookA l st.reverseLookup = some i) :
    lookA l st'.reverseLookup = some i :=
  lookA_eq_some_of_mem hok'.keysNodup
    (extends_rl_mem h (mem_of_lookA_eq_some hl))

theorem extends_vals_mono {st st' : IndexState} (h : Extends st st')
    {i : Nat} (hi : i ∈ st.reverseLookup.map Prod.snd) :
    i ∈ st'.reverseLookup.map Prod.snd := by
  obtain ⟨x, hx, hxi⟩ := List.mem_map.mp hi
  exact List.mem_map.mpr ⟨x, extends_rl_mem h hx, hxi⟩

theorem rlOk_init : RlOk initState := by
  constructor <;> simp [initState]

theorem processLabel_ok (st : IndexState) (l : Label) (hok : RlOk st) :
    RlOk (processLabel st l).1 ∧ Extends st (processLabel st l).1 ∧
    lookA l (processLabel st l).1.reverseLookup =
      some (processLabel st l).2 ∧
    lookA (processLabel st l).2 (processLabel st l).1.itemCounts =
      some ((lookA (processLabel st l).2 st.itemCounts).getD 0 + 1) ∧
    (∀ j, j ≠ (processLabel st l).2 →
      lookA j (processLabel st l).1.itemCounts =
        lookA j st.itemCounts) := by
  cases hl : lookA l st.reverseLookup with
  | some i =>
      have hmem : (l, i) ∈ st.reverseLookup := mem_of_lookA_eq_some hl
      have hsame : processLabel st l =
          ({ st with itemCounts := bumpCount st.itemCounts i }, i) := by
        unfold processLabel
        rw [hl]
      rw [hsame]
      refine ⟨?_, ?_, ?_, ?_, ?_⟩
      · exact ⟨hok.keysNodup, hok.valsNodup, hok.valsLt, hok.invFlip,
          bumpCount_keys_nodup hok.countsKeysNodup i, by
            intro p hp
            rcases bumpCount_mem_keys i (keys_mem_of_mem hp) with h | h
            · obtain ⟨q, hq, hq1⟩ := List.mem_map.mp h
              obtain ⟨i', hi'⟩ := lookA_isSome_of_mem_keys h
              exact hok.countsDom ⟨p.1, i'⟩ (by
                have := mem_of_lookA_eq_some hi'
                simpa using this)
            · rw [h]
              exact List.mem_map.mpr ⟨(l, i), hmem, rfl⟩⟩
      · exact ⟨⟨[], rfl⟩, ⟨[], rfl⟩, le_refl _⟩
      · exact hl
      · exact bumpCount_lookA_self st.itemCounts i
      · intro j hj
        exact bumpCount_lookA_other st.itemCounts hj
  | none =>
      have hnk : l ∉ st.reverseLookup.map Prod.fst := lookA_eq_none_iff.mp hl
      have hsame : processLabel st l =
          ({ reverseLookup := (l, st.lastItemId) :: st.reverseLookup,
             inventory := (st.lastItemId, l) :: st.inventory,
             lastItemId := st.lastItemId + 1,
             itemCounts := bumpCount st.itemCounts st.lastItemId },
           st.lastItemId) := by
        unfold processLabel
        rw [hl]
      rw [hsame]
      have hfresh : st.lastItemId ∉ st.reverseLookup.map Prod.snd := by
        intro hmem
        obtain ⟨p, hp, hp2⟩ := List.mem_map.mp hmem
        exact absurd hp2 (ne_of_lt (hok.valsLt p hp))
      refine ⟨?_, ?_, ?_, ?_, ?_⟩
      · refine ⟨?_, ?_, ?_, ?_, ?_, ?_⟩
        · simp only [List.map_cons, List.nodup_cons]
          exact ⟨hnk, hok.keysNodup⟩
        · simp only [List.map_cons, List.nodup_cons]
          exact ⟨hfresh, hok.valsNodup⟩
        · intro p hp
          rcases List.mem_cons.mp hp with rfl | hp'
          · simp
          · exact lt_trans (hok.valsLt p hp') (Nat.lt_succ_self _)
        · intro id' l'
          constructor
          · intro hm
            rcases List.mem_cons.mp hm with he | hm'
            · have h1 : id' = st.lastItemId := congrArg Prod.fst he
              have h2 : l' = l := congrArg Prod.snd he
              subst h1
              subst h2
              exact List.mem_cons.mpr (Or.inl rfl)
            · exact List.mem_cons_of_mem _ ((hok.invFlip id' l').mp hm')
          · intro hm
            rcases List.mem_cons.mp hm with he | hm'
            · have h1 : l' = l := congrArg Prod.fst he
              have h2 : id' = st.lastItemId := congrArg Prod.snd he
              subst h1
              subst h2
              exact List.mem_cons.mpr (Or.inl rfl)
            · exact List.mem_cons_of_mem _ ((hok.invFlip id' l').mpr hm')
        · exact bumpCount_keys_nodup hok.countsKeysNodup _
        · intro p hp
          rcases bumpCount_mem_keys _ (keys_mem_of_mem hp) with h | h
          · obtain ⟨i', hi'⟩ := lookA_isSome_of_mem_keys h
            have hm := mem_of_lookA_eq_some hi'
            have := hok.countsDom ⟨p.1, i'⟩ (by simpa using hm)
            simp only [List.map_cons]
            exact List.mem_cons_of_mem _ this
          · rw [h]
            simp
      · exact ⟨⟨[(l, st.lastItemId)], rfl⟩, ⟨[(st.lastItemId, l)], rfl⟩,
          Nat.le_succ _⟩
      · simp
      · exact bumpCount_lookA_self st.itemCounts st.lastItemId
      · intro j hj
        exact bumpCount_lookA_other st.itemCounts hj

theorem processItems_ok (rt : List Label) : ∀ (st : IndexState), RlOk st →
    RlOk (processItems st rt).1 ∧ Extends st (processItems st rt).1 ∧
    (∀ l ∈ rt, ∃ i,
      lookA l (processItems st rt).1.reverseLookup = some i) ∧
    (∀ i, i ∈ (processItems st rt).2 ↔
      ∃ l ∈ rt, lookA l (processItems st rt).1.reverseLookup = some i) ∧
    (∀ l i, lookA l (processItems st rt).1.reverseLookup = some i →
      (lookA i (processItems st rt).1.itemCounts).getD 0 =
        (lookA i st.itemCounts).getD 0 + rt.count l) := by
  induction rt with
  | nil =>
      intro st hok
      refine ⟨hok, extends_refl st, by simp, by simp [processItems], ?_⟩
      intro l i _
      simp [processItems]
  | cons l₀ rest ih =>
      intro st hok
      obtain ⟨hok₁, hext₁, hlk₀, hcself, hcother⟩ := processLabel_ok st l₀ hok
      obtain ⟨hok₂, hext₂, hseen₂, hids₂, hcnt₂⟩ :=
        ih (processLabel st l₀).1 hok₁
      have hunfold : processItems st (l₀ :: rest) =
          ((processItems (processLabel st l₀).1 rest).1,
           (processLabel st l₀).2 ::
             (processItems (processLabel st l₀).1 rest).2) := rfl
      rw [hunfold]
      have hmono : lookA l₀
          (processItems (processLabel st l₀).1 rest).1.reverseLookup =
          some (processLabel st l₀).2 :=
        extends_lookA_mono hext₂ hok₂ hlk₀
      refine ⟨hok₂, extends_trans hext₁ hext₂, ?_, ?_, ?_⟩
      · intro l hl
        rcases List.mem_cons.mp hl with rfl | hl'
        · exact ⟨_, hmono⟩
        · exact hseen₂ l hl'
      · intro i
        constructor
        · intro hi
          rcases List.mem_cons.mp hi with rfl | hi'
          · exact ⟨l₀, List.mem_cons_self _ _, hmono⟩
          · obtain ⟨l, hl, hlk⟩ := (hids₂ i).mp hi'
            exact ⟨l, List.mem_cons_of_mem _ hl, hlk⟩
        · rintro ⟨l, hl, hlk⟩
          rcases List.mem_cons.mp hl with rfl | hl'
          · have : some i = some (processLabel st l).2 :=
              hlk.symm.trans hmono
            simp only [Option.some.injEq] at this
            rw [this]
            exact List.mem_cons_self _ _
          · exact List.mem_cons_of_mem _ ((hids₂ i).mpr ⟨l, hl', hlk⟩)
      · intro l i hlk
        have hc₂ := hcnt₂ l i hlk
        by_cases hll : l = l₀
        · subst hll
          have hii : i = (processLabel st l).2 := by
            have : some i = some (processLabel st l).2 :=
              hlk.symm.trans hmono
            simpa using this
          subst hii
          rw [hc₂, hcself]
          simp only [Option.getD_some]
          rw [List.count_cons_self]
          omega
        · have hi₀ : i ≠ (processLabel st l₀).2 := by
            intro hii
            apply hll
            refine vals_nodup_inj hok₂.valsNodup
              (mem_of_lookA_eq_some hlk) ?_
            rw [hii] at hlk ⊢
            exact mem_of_lookA_eq_some hmono
          rw [hc₂, hcother i hi₀,
            List.count_cons_of_ne (by simpa using hll)]

theorem processTransaction_ok (st : IndexState) (rt : List Label)
    (hok : RlOk st) :
    RlOk (processTransaction st rt).1 ∧
    Extends st (processTransaction st rt).1 ∧
    (∀ l ∈ rt, ∃ i,
      lookA l (processTransaction st rt).1.reverseLookup = some i) ∧
    (∀ i, i ∈ (processTransaction st rt).2 ↔
      ∃ l ∈ rt,
        lookA l (processTransaction st rt).1.reverseLookup = some i) ∧
    (∀ l i,
      lookA l (processTransaction st rt).1.reverseLookup = some i →
      (lookA i (processTransaction st rt).1.itemCounts).getD 0 =
        (lookA i st.itemCounts).getD 0 + rt.count l) := by
  obtain ⟨hok', hext, hseen, hids, hcnt⟩ := processItems_ok rt st hok
  have h1 : (processTransaction st rt).1 = (processItems st rt).1 := rfl
  have h2 : (processTransaction st rt).2 =
      List.insertionSort (· ≤ ·) (processItems st rt).2 := rfl
  rw [h1, h2]
  refine ⟨hok', hext, hseen, ?_, hcnt⟩
  intro i
  rw [List.mem_insertionSort]
  exact hids i

theorem indexRun_ok (raw : List (List Label)) : ∀ st, RlOk st →
    RlOk (indexRun st raw).1 ∧ Extends st (indexRun st raw).1 ∧
    (∀ rt ∈ raw, ∀ l ∈ rt, ∃ i,
      lookA l (indexRun st raw).1.reverseLookup = some i) ∧
    List.Forall₂ (fun rt t => ∀ i, i ∈ t ↔ ∃ l ∈ rt,
      lookA l (indexRun st raw).1.reverseLookup = some i)
      raw (indexRun st raw).2 ∧
    (∀ l i, lookA l (indexRun st raw).1.reverseLookup = some i →
      (lookA i (indexRun st raw).1.itemCounts).getD 0 =
        (lookA i st.itemCounts).getD 0 +
          (raw.map (fun rt => rt.count l)).sum) := by
  induction raw with
  | nil =>
      intro st hok
      refine ⟨hok, extends_refl st, by simp, by simp [indexRun], ?_⟩
      intro l i _
      simp [indexRun]
  | cons rt rest ih =>
      intro st hok
      obtain ⟨hok₁, hext₁, hseen₁, hids₁, hcnt₁⟩ :=
        processTransaction_ok st rt hok
      obtain ⟨hok₂, hext₂, hseen₂, hall₂, hcnt₂⟩ :=
        ih (processTransaction st rt).1 hok₁
      have hunfold : indexRun st (rt :: rest) =
          ((indexRun (processTransaction st rt).1 rest).1,
           (processTransaction st rt).2 ::
             (indexRun (processTransaction st rt).1 rest).2) := rfl
      rw [hunfold]
      refine ⟨hok₂, extends_trans hext₁ hext₂, ?_, ?_, ?_⟩
      · intro rt' hrt' l hl
        rcases List.mem_cons.mp hrt' with rfl | hrt''
        · obtain ⟨i, hi⟩ := hseen₁ l hl
          exact ⟨i, extends_lookA_mono hext₂ hok₂ hi⟩
        · exact hseen₂ rt' hrt'' l hl
      · refine List.Forall₂.cons ?_ hall₂
        intro i
        rw [hids₁ i]
        constructor
        · rintro ⟨l, hl, hlk⟩
          exact ⟨l, hl, extends_lookA_mono hext₂ hok₂ hlk⟩
        · rintro ⟨l, hl, hlk⟩
          obtain ⟨i₀, hi₀⟩ := hseen₁ l hl
          have : some i = some i₀ :=
            hlk.symm.trans (extends_lookA_mono hext₂ hok₂ hi₀)
          simp only [Option.some.injEq] at this
          exact ⟨l, hl, this ▸ hi₀⟩
      · intro l i hlk
        have hc₂ := hcnt₂ l i hlk
        rw [List.map_cons, List.sum_cons]
        cases hl₁ : lookA l (processTransaction st rt).1.reverseLookup with
        | some i₁ =>
            have : some i = some i₁ :=
              hlk.symm.trans (extends_lookA_mono hext₂ hok₂ hl₁)
            simp only [Option.some.injEq] at this
            subst this
            rw [hc₂, hcnt₁ l i hl₁]
            omega
        | none =>
            have hlnk : l ∉
                (processTransaction st rt).1.reverseLookup.map Prod.fst :=
              lookA_eq_none_iff.mp hl₁
            have hlrt : l ∉ rt := by
              intro hl
              obtain ⟨i₀, hi₀⟩ := hseen₁ l hl
              exact hlnk (keys_mem_of_mem (mem_of_lookA_eq_some hi₀))
            have hcount : rt.count l = 0 :=
              List.count_eq_zero.mpr hlrt
            have hvals₁ : i ∉
                (processTransaction st rt).1.reverseLookup.map Prod.snd := by
              intro hv
              obtain ⟨⟨l', i'⟩, hp, hpi⟩ := List.mem_map.mp hv
              simp only at hpi
              rw [hpi] at hp
              have hl' : (l', i) ∈
                  (indexRun (processTransaction st rt).1 rest).1.reverseLookup :=
                extends_rl_mem hext₂ hp
              have heq : l = l' :=
                vals_nodup_inj hok₂.valsNodup (mem_of_lookA_eq_some hlk) hl'
              exact hlnk (heq ▸ keys_mem_of_mem hp)
            have hvals₀ : i ∉ st.reverseLookup.map Prod.snd := by
              intro hv
              obtain ⟨p, hp, hpi⟩ := List.mem_map.mp hv
              exact hvals₁ (List.mem_map.mpr ⟨p, extends_rl_mem hext₁ hp, hpi⟩)
            have hc₁ : lookA i (processTransaction st rt).1.itemCounts = none := by
              cases hc : lookA i (processTransaction st rt).1.itemCounts with
              | none => rfl
              | some c =>
                  exact absurd
                    (hok₁.countsDom _ (mem_of_lookA_eq_some hc)) hvals₁
            have hc₀ : lookA i st.itemCounts = none := by
              cases hc : lookA i st.itemCounts with
              | none => rfl
              | some c =>
                  exact absurd (hok.countsDom _ (mem_of_lookA_eq_some hc)) hvals₀
            rw [hc₂, hc₁, hc₀, hcount]
            simp

/-! ### `generate_frequent_item_counts` lemmas -/

theorem forall₂_mem_right {α β : Type} {R : α → β → Prop} :
    ∀ {l₁ : List α} {l₂ : List β}, List.Forall₂ R l₁ l₂ →
    ∀ {b : β}, b ∈ l₂ → ∃ a ∈ l₁, R a b := by
  intro l₁ l₂ h
  induction h with
  | nil => intro b hb; simp at hb
  | cons hab htail ih =>
      intro b hb
      rcases List.mem_cons.mp hb with rfl | hb'
      · exact ⟨_, List.mem_cons_self _ _, hab⟩
      · obtain ⟨a, ha, hr⟩ := ih hb'
        exact ⟨a, List.mem_cons_of_mem _ ha, hr⟩

theorem forall₂_imp_mem {α β : Type} {R S : α → β → Prop} :
    ∀ {l₁ : List α} {l₂ : List β}, List.Forall₂ R l₁ l₂ →
    (∀ a b, a ∈ l₁ → b ∈ l₂ → R a b → S a b) →
    List.Forall₂ S l₁ l₂ := by
  intro l₁ l₂ h
  induction h with
  | nil => intro _; exact List.Forall₂.nil
  | cons hab htail ih =>
      intro himp
      refine List.Forall₂.cons
        (himp _ _ (List.mem_cons_self _ _) (List.mem_cons_self _ _) hab) ?_
      exact ih (fun a b ha hb => himp a b (List.mem_cons_of_mem _ ha)
        (List.mem_cons_of_mem _ hb))

theorem sum_count_eq_length_filter {raw : List (List Label)}
    (hnd : ∀ rt ∈ raw, rt.Nodup) (l : Label) :
    (raw.map (fun rt => rt.count l)).sum =
      (raw.filter (fun rt => decide (l ∈ rt))).length := by
  induction raw with
  | nil => simp
  | cons rt rest ih =>
      have hrest := ih (fun rt' h => hnd rt' (List.mem_cons_of_mem _ h))
      rw [List.map_cons, List.sum_cons, List.filter_cons]
      by_cases hl : l ∈ rt
      · rw [if_pos (by simpa using hl), List.length_cons,
          List.count_eq_one_of_mem (hnd rt (List.mem_cons_self _ _)) hl,
          hrest]
        omega
      · rw [if_neg (by simpa using hl),
          List.count_eq_zero_of_not_mem hl, hrest]
        omega

theorem containsAll_singleton (t : Transaction) (i : Nat) :
    containsAll t [i] = decide (i ∈ t) := by
  simp [containsAll]

theorem gfic_eq_indexRun (raw : List (List Label)) (ms : ℚ) :
    generate_frequent_item_counts raw ms =
      ((indexRun initState raw).1.itemCounts.filter
        (fun q => minSupportCountU32 ms raw.length ≤ q.2),
       (indexRun initState raw).1.inventory,
       (indexRun initState raw).2) := rfl

theorem gfic_counts_mem (raw : List (List Label)) (ms : ℚ)
    {p : Nat × Nat} (hp : p ∈ (generate_frequent_item_counts raw ms).1) :
    p ∈ (indexRun initState raw).1.itemCounts ∧
      minSupportCountU32 ms raw.length ≤ p.2 := by
  rw [gfic_eq_indexRun] at hp
  have := List.mem_filter.mp hp
  exact ⟨this.1, by simpa using this.2⟩

theorem gfic_keysNodup (raw : List (List Label)) (ms : ℚ) :
    ((generate_frequent_item_counts raw ms).1.map Prod.fst).Nodup := by
  rw [gfic_eq_indexRun]
  have hok := (indexRun_ok raw initState rlOk_init).1
  exact List.Nodup.sublist
    (List.Sublist.map Prod.fst (List.filter_sublist _))
    hok.countsKeysNodup

/-- The central level-1 fact: every retained item count is the exact
support count of the corresponding singleton itemset over the full
normalized transaction collection. -/
theorem gfic_support_eq (raw : List (List Label)) (ms : ℚ)
    (hnd : ∀ rt ∈ raw, rt.Nodup) {p : Nat × Nat}
    (hp : p ∈ (generate_frequent_item_counts raw ms).1) :
    p.2 = supportCount (generate_frequent_item_counts raw ms).2.2 [p.1] := by
  obtain ⟨hok, _, _, hall, hcnt⟩ := indexRun_ok raw initState rlOk_init
  obtain ⟨hpmem, _⟩ := gfic_counts_mem raw ms hp
  have hlkc : lookA p.1 (indexRun initState raw).1.itemCounts = some p.2 :=
    lookA_eq_some_of_mem hok.countsKeysNodup (by
      have : (p.1, p.2) = p := rfl
      rw [this]
      exact hpmem)
  obtain ⟨⟨l, i'⟩, hlrl, hli⟩ :=
    List.mem_map.mp (hok.countsDom p hpmem)
  simp only at hli
  rw [hli] at hlrl
  have hlk : lookA l (indexRun initState raw).1.reverseLookup = some p.1 :=
    lookA_eq_some_of_mem hok.keysNodup hlrl
  have hc := hcnt l p.1 hlk
  rw [hlkc] at hc
  simp only [Option.getD_some, initState, lookA_nil, Option.getD_none,
    Nat.zero_add] at hc
  have hiff : List.Forall₂
      (fun rt t => (decide (l ∈ rt) = true) ↔
        (containsAll t [p.1] = true))
      raw (indexRun initState raw).2 := by
    refine forall₂_imp_mem hall ?_
    intro rt t _ _ hR
    rw [containsAll_singleton]
    constructor
    · intro hmem
      rw [decide_eq_true_eq] at hmem ⊢
      exact (hR p.1).mpr ⟨l, hmem, hlk⟩
    · intro hmem
      rw [decide_eq_true_eq] at hmem ⊢
      obtain ⟨l', hl', hlk'⟩ := (hR p.1).mp hmem
      have : l' = l := vals_nodup_inj hok.valsNodup
        (mem_of_lookA_eq_some hlk') (mem_of_lookA_eq_some hlk)
      exact this ▸ hl'
  have hlen := length_filter_eq_of_forall₂ hiff
  rw [gfic_eq_indexRun]
  unfold supportCount
  rw [← hlen, ← sum_count_eq_length_filter hnd l]
  exact hc

theorem lookup_count_support (raw : List (List Label))
    (hnd : ∀ rt ∈ raw, rt.Nodup) {l : Label} {i : Nat}
    (hlk : lookA l (indexRun initState raw).1.reverseLookup = some i) :
    (lookA i (indexRun initState raw).1.itemCounts).getD 0 =
      supportCount (indexRun initState raw).2 [i] := by
  obtain ⟨hok, _, _, hall, hcnt⟩ := indexRun_ok raw initState rlOk_init
  have hc := hcnt l i hlk
  simp only [initState, lookA_nil, Option.getD_none, Nat.zero_add] at hc
  have hiff : List.Forall₂
      (fun rt t => (decide (l ∈ rt) = true) ↔
        (containsAll t [i] = true))
      raw (indexRun initState raw).2 := by
    refine forall₂_imp_mem hall ?_
    intro rt t _ _ hR
    rw [containsAll_singleton]
    constructor
    · intro hmem
      rw [decide_eq_true_eq] at hmem ⊢
      exact (hR i).mpr ⟨l, hmem, hlk⟩
    · intro hmem
      rw [decide_eq_true_eq] at hmem ⊢
      obtain ⟨l', hl', hlk'⟩ := (hR i).mp hmem
      have : l' = l := vals_nodup_inj hok.valsNodup
        (mem_of_lookA_eq_some hlk') (mem_of_lookA_eq_some hlk)
      exact this ▸ hl'
  have hlen := length_filter_eq_of_forall₂ hiff
  unfold supportCount
  rw [← hlen, ← sum_count_eq_length_filter hnd l]
  exact hc

/-- Completeness at level 1: an identifier occurring in some normalized
transaction whose support meets the `u32` threshold is retained, with
its exact support as count. -/
theorem gfic_complete_single (raw : List (List Label)) (ms : ℚ)
    (hnd : ∀ rt ∈ raw, rt.Nodup) {t : Transaction} {i : Nat}
    (ht : t ∈ (generate_frequent_item_counts raw ms).2.2) (hi : i ∈ t)
    (hms : minSupportCountU32 ms raw.length ≤
      supportCount (generate_frequent_item_counts raw ms).2.2 [i]) :
    (i, supportCount (generate_frequent_item_counts raw ms).2.2 [i]) ∈
      (generate_frequent_item_counts raw ms).1 := by
  obtain ⟨hok, _, _, hall, hcnt⟩ := indexRun_ok raw initState rlOk_init
  rw [gfic_eq_indexRun] at ht ⊢
  simp only at ht ⊢
  obtain ⟨rt, hrt, hR⟩ := forall₂_mem_right hall ht
  obtain ⟨l, _, hlk⟩ := (hR i).mp hi
  have haux := lookup_count_support raw hnd hlk
  have hpos : 0 < supportCount (indexRun initState raw).2 [i] := by
    unfold supportCount
    refine List.length_pos_of_mem (a := t) ?_
    refine List.mem_filter.mpr ⟨ht, ?_⟩
    rw [containsAll_singleton]
    simpa using hi
  cases hcl : lookA i (indexRun initState raw).1.itemCounts with
  | none =>
      rw [hcl] at haux
      simp only [Option.getD_none] at haux
      omega
  | some c =>
      rw [hcl] at haux
      simp only [Option.getD_some] at haux
      subst haux
      refine List.mem_filter.mpr ⟨mem_of_lookA_eq_some hcl, ?_⟩
      simp only [decide_eq_true_eq]
      rw [gfic_eq_indexRun] at hms
      exact hms

/-! ### `yo` and candidate-counting lemmas -/

theorem mem_yo {keys : List Nat} {txs : List Transaction} {msc : Nat}
    {q : Itemset × Nat} (hq : q ∈ yo keys txs msc) :
    ∃ cand ∈ combinations2 keys, msc ≤ supportCount txs cand ∧
      q.1 = List.insertionSort (· ≤ ·) cand ∧
      q.2 = supportCount txs cand := by
  unfold yo at hq
  rw [List.mem_filterMap] at hq
  obtain ⟨cand, hcand, heq⟩ := hq
  by_cases hms : msc ≤ supportCount txs cand
  · rw [if_pos hms, Option.some.injEq] at heq
    refine ⟨cand, hcand, hms, ?_, ?_⟩
    · exact (congrArg Prod.fst heq).symm
    · exact (congrArg Prod.snd heq).symm
  · rw [if_neg hms] at heq
    simp at heq

theorem yo_complete {keys : List Nat} {txs : List Transaction}
    {msc : Nat} {cand : List Nat} (hc : cand ∈ combinations2 keys)
    (hms : msc ≤ supportCount txs cand) :
    (List.insertionSort (· ≤ ·) cand, supportCount txs cand) ∈
      yo keys txs msc := by
  unfold yo
  rw [List.mem_filterMap]
  exact ⟨cand, hc, by rw [if_pos hms]⟩

theorem mem_gficc {cands : List Itemset} {txs : List Transaction}
    {msc : Nat} {q : Itemset × Nat}
    (hq : q ∈ generate_frequent_itemset_counts_from_candidates
      cands txs msc) :
    q.1 ∈ cands ∧ msc ≤ q.2 ∧ q.2 = supportCount txs q.1 := by
  unfold generate_frequent_itemset_counts_from_candidates at hq
  rw [List.mem_filterMap] at hq
  obtain ⟨cand, hcand, heq⟩ := hq
  by_cases hms : msc ≤ supportCount txs cand
  · rw [if_pos hms, Option.some.injEq] at heq
    have h1 : q.1 = cand := (congrArg Prod.fst heq).symm
    have h2 : q.2 = supportCount txs cand := (congrArg Prod.snd heq).symm
    subst h1
    exact ⟨hcand, by rw [h2]; exact hms, h2⟩
  · rw [if_neg hms] at heq
    simp at heq

theorem gficc_complete {cands : List Itemset} {txs : List Transaction}
    {msc : Nat} {c : Itemset} (hc : c ∈ cands)
    (hms : msc ≤ supportCount txs c) :
    (c, supportCount txs c) ∈
      generate_frequent_itemset_counts_from_candidates cands txs msc := by
  unfold generate_frequent_itemset_counts_from_candidates
  rw [List.mem_filterMap]
  exact ⟨c, hc, by rw [if_pos hms]⟩

/-! ### Level-loop invariant -/

theorem mem_range1 {m n : Nat} :
    m ∈ List.range' 1 n ↔ 1 ≤ m ∧ m < 1 + n := by
  rw [List.mem_range']
  constructor
  · rintro ⟨i, hi, rfl⟩
    omega
  · rintro ⟨h1, h2⟩
    exact ⟨m - 1, by omega, by omega⟩

theorem levelLoop_ok (msc : Nat) (txs0 : List Transaction) :
    ∀ (fuel size : Nat) (levels : FrequentItemsets),
    3 ≤ size →
    levels.map Prod.fst = List.range' 1 (size - 1) →
    (∀ p ∈ levels, ∀ q ∈ p.2, q.1.length = p.1 ∧ q.1.Nodup ∧
      q.1.Sorted (· ≤ ·) ∧ q.2 = supportCount txs0 q.1) →
    (∀ p ∈ levels, 2 ≤ p.1 → ∀ q ∈ p.2, msc ≤ q.2) →
    (∀ p ∈ levels, 3 ≤ p.1 → ∀ q ∈ p.2, ∀ s ∈ subsetsRemoveOne q.1,
      ∃ lvlPrev, lookA (p.1 - 1) levels = some lvlPrev ∧
        s ∈ lvlPrev.map Prod.fst) →
    (∀ n, 3 ≤ n → n ≤ size - 1 → ∀ lvlPrev lvl,
      lookA (n - 1) levels = some lvlPrev →
      lookA n levels = some lvl →
      ∀ c ∈ join_step (lvlPrev.map Prod.fst),
        msc ≤ supportCount txs0 c → (c, supportCount txs0 c) ∈ lvl) →
    (levelLoop msc fuel size
        (txs0.filter (fun t => size - 1 ≤ t.length)) levels).map Prod.fst =
      List.range' 1 (size - 1 + fuel) ∧
    (∀ n lvl, lookA n levels = some lvl →
      lookA n (levelLoop msc fuel size
        (txs0.filter (fun t => size - 1 ≤ t.length)) levels) = some lvl) ∧
    (∀ p ∈ levelLoop msc fuel size
        (txs0.filter (fun t => size - 1 ≤ t.length)) levels,
      ∀ q ∈ p.2, q.1.length = p.1 ∧ q.1.Nodup ∧
        q.1.Sorted (· ≤ ·) ∧ q.2 = supportCount txs0 q.1) ∧
    (∀ p ∈ levelLoop msc fuel size
        (txs0.filter (fun t => size - 1 ≤ t.length)) levels,
      2 ≤ p.1 → ∀ q ∈ p.2, msc ≤ q.2) ∧
    (∀ p ∈ levelLoop msc fuel size
        (txs0.filter (fun t => size - 1 ≤ t.length)) levels,
      3 ≤ p.1 → ∀ q ∈ p.2, ∀ s ∈ subsetsRemoveOne q.1,
      ∃ lvlPrev, lookA (p.1 - 1) (levelLoop msc fuel size
        (txs0.filter (fun t => size - 1 ≤ t.length)) levels) =
          some lvlPrev ∧ s ∈ lvlPrev.map Prod.fst) ∧
    (∀ n, 3 ≤ n → n ≤ size - 1 + fuel → ∀ lvlPrev lvl,
      lookA (n - 1) (levelLoop msc fuel size
        (txs0.filter (fun t => size - 1 ≤ t.length)) levels) =
        some lvlPrev →
      lookA n (levelLoop msc fuel size
        (txs0.filter (fun t => size - 1 ≤ t.length)) levels) = some lvl →
      ∀ c ∈ join_step (lvlPrev.map Prod.fst),
        msc ≤ supportCount txs0 c → (c, supportCount txs0 c) ∈ lvl) := by
  intro fuel
  induction fuel with
  | zero =>
      intro size levels hsize hkeys hgood hthr hanti hcompl
      exact ⟨by simpa [levelLoop] using hkeys, fun n lvl h => h, hgood,
        hthr, hanti, by simpa using hcompl⟩
  | succ fuel ih =>
      intro size levels hsize hkeys hgood hthr hanti hcompl
      have hmemkey : (size - 1) ∈ levels.map Prod.fst := by
        rw [hkeys, mem_range1]
        omega
      obtain ⟨prevL, hprev⟩ := lookA_isSome_of_mem_keys hmemkey
      have hprevMem : (size - 1, prevL) ∈ levels :=
        mem_of_lookA_eq_some hprev
      have hprevGood : ∀ pp ∈ prevL.map Prod.fst,
          pp.length = size - 1 ∧ pp.Nodup ∧ pp.Sorted (· ≤ ·) := by
        intro pp hpp
        obtain ⟨q, hq, rfl⟩ := List.mem_map.mp hpp
        have h := hgood _ hprevMem q hq
        exact ⟨h.1, h.2.1, h.2.2.1⟩
      have hjoin : ∀ c ∈ join_step (prevL.map Prod.fst),
          c.length = size ∧ c.Nodup ∧ c.Sorted (· ≤ ·) := by
        intro c hc
        obtain ⟨h1, h2, h3⟩ := join_step_good hprevGood hc
        refine ⟨by omega, h2, h3⟩
      have hjsupp : ∀ c ∈ join_step (prevL.map Prod.fst),
          supportCount (txs0.filter (fun t => size ≤ t.length)) c =
            supportCount txs0 c := by
        intro c hc
        obtain ⟨h1, h2, _⟩ := hjoin c hc
        exact supportCount_filter_length h2 (le_of_eq h1.symm)
      have hstep : levelLoop msc (fuel + 1) size
          (txs0.filter (fun t => size - 1 ≤ t.length)) levels =
          levelLoop msc fuel (size + 1)
            (txs0.filter (fun t => size + 1 - 1 ≤ t.length))
            (levels ++ [(size,
              generate_frequent_itemset_counts_from_candidates
                (generate_candidates_from_prev prevL)
                (txs0.filter (fun t => size ≤ t.length)) msc)]) := by
        simp only [levelLoop]
        rw [filter_length_absorb (by omega : size - 1 ≤ size), hprev]
        simp only [Option.getD_some, Nat.add_sub_cancel]
      rw [hstep]
      have hcands : generate_candidates_from_prev prevL =
          join_step (prevL.map Prod.fst) := rfl
      have hfreqMem : ∀ q ∈
          generate_frequent_itemset_counts_from_candidates
            (generate_candidates_from_prev prevL)
            (txs0.filter (fun t => size ≤ t.length)) msc,
          q.1 ∈ join_step (prevL.map Prod.fst) ∧ msc ≤ q.2 ∧
            q.2 = supportCount txs0 q.1 := by
        intro q hq
        obtain ⟨h1, h2, h3⟩ := mem_gficc hq
        rw [hcands] at h1
        exact ⟨h1, h2, h3.trans (hjsupp _ h1)⟩
      have hnotkey : size ∉ levels.map Prod.fst := by
        rw [hkeys, mem_range1]
        omega
      have hlvlNew : lookA size (levels ++
          [(size, generate_frequent_itemset_counts_from_candidates
            (generate_candidates_from_prev prevL)
            (txs0.filter (fun t => size ≤ t.length)) msc)]) =
          some (generate_frequent_itemset_counts_from_candidates
            (generate_candidates_from_prev prevL)
            (txs0.filter (fun t => size ≤ t.length)) msc) := by
        rw [lookA_append_right hnotkey]
        simp
      have hkeys' : ((levels ++
          [(size, generate_frequent_itemset_counts_from_candidates
            (generate_candidates_from_prev prevL)
            (txs0.filter (fun t => size ≤ t.length)) msc)]).map
              Prod.fst) = List.range' 1 (size + 1 - 1) := by
        rw [List.map_append, hkeys]
        simp only [List.map_cons, List.map_nil]
        have h1 : size + 1 - 1 = (size - 1) + 1 := by omega
        have h2 : 1 + 1 * (size - 1) = size := by omega
        rw [h1, List.range'_concat, h2]
      have hgood' : ∀ p ∈ (levels ++
          [(size, generate_frequent_itemset_counts_from_candidates
            (generate_candidates_from_prev prevL)
            (txs0.filter (fun t => size ≤ t.length)) msc)]),
          ∀ q ∈ p.2, q.1.length = p.1 ∧ q.1.Nodup ∧
            q.1.Sorted (· ≤ ·) ∧ q.2 = supportCount txs0 q.1 := by
        intro p hp q hq
        rcases List.mem_append.mp hp with hp' | hp'
        · exact hgood p hp' q hq
        · rw [List.mem_singleton] at hp'
          subst hp'
          obtain ⟨h1, _, h3⟩ := hfreqMem q hq
          obtain ⟨hl, hn, hs⟩ := hjoin _ h1
          exact ⟨hl, hn, hs, h3⟩
      have hthr' : ∀ p ∈ (levels ++
          [(size, generate_frequent_itemset_counts_from_candidates
            (generate_candidates_from_prev prevL)
            (txs0.filter (fun t => size ≤ t.length)) msc)]),
          2 ≤ p.1 → ∀ q ∈ p.2, msc ≤ q.2 := by
        intro p hp h2 q hq
        rcases List.mem_append.mp hp with hp' | hp'
        · exact hthr p hp' h2 q hq
        · rw [List.mem_singleton] at hp'
          subst hp'
          exact (hfreqMem q hq).2.1
      have hanti' : ∀ p ∈ (levels ++
          [(size, generate_frequent_itemset_counts_from_candidates
            (generate_candidates_from_prev prevL)
            (txs0.filter (fun t => size ≤ t.length)) msc)]),
          3 ≤ p.1 → ∀ q ∈ p.2, ∀ s ∈ subsetsRemoveOne q.1,
          ∃ lvlPrev, lookA (p.1 - 1) (levels ++
            [(size, generate_frequent_itemset_counts_from_candidates
              (generate_candidates_from_prev prevL)
              (txs0.filter (fun t => size ≤ t.length)) msc)]) =
            some lvlPrev ∧ s ∈ lvlPrev.map Prod.fst := by
        intro p hp h3p q hq s hs
        rcases List.mem_append.mp hp with hp' | hp'
        · obtain ⟨lvlPrev, hlp, hsp⟩ := hanti p hp' h3p q hq s hs
          exact ⟨lvlPrev, lookA_append_left hlp, hsp⟩
        · rw [List.mem_singleton] at hp'
          subst hp'
          obtain ⟨h1, _, _⟩ := hfreqMem q hq
          obtain ⟨_, hsub⟩ := mem_join_step h1
          exact ⟨prevL, lookA_append_left hprev, hsub s hs⟩
      have hcompl' : ∀ n, 3 ≤ n → n ≤ size + 1 - 1 → ∀ lvlPrev lvl,
          lookA (n - 1) (levels ++
            [(size, generate_frequent_itemset_counts_from_candidates
              (generate_candidates_from_prev prevL)
              (txs0.filter (fun t => size ≤ t.length)) msc)]) =
            some lvlPrev →
          lookA n (levels ++
            [(size, generate_frequent_itemset_counts_from_candidates
              (generate_candidates_from_prev prevL)
              (txs0.filter (fun t => size ≤ t.length)) msc)]) =
            some lvl →
          ∀ c ∈ join_step (lvlPrev.map Prod.fst),
            msc ≤ supportCount txs0 c →
            (c, supportCount txs0 c) ∈ lvl := by
        intro n h3 hn lvlPrev lvl hlp hl c hc hmsc
        by_cases hcase : n ≤ size - 1
        · have hnk : n ∈ levels.map Prod.fst := by
            rw [hkeys, mem_range1]
            omega
          obtain ⟨l₀, hl₀⟩ := lookA_isSome_of_mem_keys hnk
          have hn1k : n - 1 ∈ levels.map Prod.fst := by
            rw [hkeys, mem_range1]
            omega
          obtain ⟨l₁, hl₁⟩ := lookA_isSome_of_mem_keys hn1k
          have h0 : lookA n (levels ++
              [(size, generate_frequent_itemset_counts_from_candidates
                (generate_candidates_from_prev prevL)
                (txs0.filter (fun t => size ≤ t.length)) msc)]) =
              some l₀ := lookA_append_left hl₀
          have e0 : lvl = l₀ := by
            rw [hl] at h0
            simpa using h0
          have h1 : lookA (n - 1) (levels ++
              [(size, generate_frequent_itemset_counts_from_candidates
                (generate_candidates_from_prev prevL)
                (txs0.filter (fun t => size ≤ t.length)) msc)]) =
              some l₁ := lookA_append_left hl₁
          have e1 : lvlPrev = l₁ := by
            rw [hlp] at h1
            simpa using h1
          rw [e0]
          rw [e1] at hc
          exact hcompl n h3 hcase l₁ l₀ hl₁ hl₀ c hc hmsc
        · have hneq : n = size := by omega
          subst hneq
          have h1 : lookA (n - 1) (levels ++
              [(n, generate_frequent_itemset_counts_from_candidates
                (generate_candidates_from_prev prevL)
                (txs0.filter (fun t => n ≤ t.length)) msc)]) =
              some prevL := lookA_append_left hprev
          have e1 : lvlPrev = prevL := by
            rw [hlp] at h1
            simpa using h1
          have e0 : lvl = generate_frequent_itemset_counts_from_candidates
              (generate_candidates_from_prev prevL)
              (txs0.filter (fun t => n ≤ t.length)) msc := by
            rw [hl] at hlvlNew
            simpa using hlvlNew
          rw [e0]
          rw [e1] at hc
          have hsupp := hjsupp c hc
          have hmem : (c, supportCount
              (txs0.filter (fun t => n ≤ t.length)) c) ∈
              generate_frequent_itemset_counts_from_candidates
                (generate_candidates_from_prev prevL)
                (txs0.filter (fun t => n ≤ t.length)) msc :=
            gficc_complete (by rw [hcands]; exact hc)
              (by rw [hsupp]; exact hmsc)
          rw [hsupp] at hmem
          exact hmem
      obtain ⟨ck, cpres, cgood, cthr, canti, ccompl⟩ :=
        ih (size + 1) _ (by omega) hkeys' hgood' hthr' hanti' hcompl'
      have harith : size + 1 - 1 + fuel = size - 1 + (fuel + 1) := by
        omega
      refine ⟨by rw [← harith]; exact ck, ?_, cgood, cthr, canti, ?_⟩
      · intro n lvl h
        exact cpres n lvl (lookA_append_left h)
      · intro n h3 hn
        exact ccompl n h3 (by omega)

/-! ### Driver lemmas -/

theorem gfi_eq_k1 (raw : List (List Label)) (ms : ℚ) :
    generate_frequent_itemsets raw ms 1 =
      ([(1, convert_to_itemset_counts
          (generate_frequent_item_counts raw ms).1)],
       (generate_frequent_item_counts raw ms).2.1) := rfl

theorem gfi_eq_else (raw : List (List Label)) (ms : ℚ) (k : Nat)
    (hk : k ≠ 1) :
    generate_frequent_itemsets raw ms k =
      (levelLoop (minSupportCountUsize ms raw.length) (k - 2) 3
        ((generate_frequent_item_counts raw ms).2.2.filter
          (fun t => 2 ≤ t.length))
        [(1, convert_to_itemset_counts
            (generate_frequent_item_counts raw ms).1),
         (2, yo ((generate_frequent_item_counts raw ms).1.map Prod.fst)
            ((generate_frequent_item_counts raw ms).2.2.filter
              (fun t => 2 ≤ t.length))
            (minSupportCountUsize ms raw.length))],
       (generate_frequent_item_counts raw ms).2.1) := by
  simp only [generate_frequent_itemsets]
  rw [if_neg hk]

/-- Master structure theorem for a run with `k ≠ 1` (the `else` branch
of the driver): level keys are `1 .. max 2 k`, levels 1 and 2 hold the
converted item counts and the `yo` output, and every level satisfies
the structural, exact-count, threshold, anti-monotonicity and
completeness properties. -/
theorem gfi_master (raw : List (List Label)) (ms : ℚ) (k : Nat)
    (hnd : ∀ rt ∈ raw, rt.Nodup) (hk : k ≠ 1) :
    (resultLevels raw ms k).map Prod.fst = List.range' 1 (2 + (k - 2)) ∧
    lookA 1 (resultLevels raw ms k) = some (convert_to_itemset_counts
      (generate_frequent_item_counts raw ms).1) ∧
    lookA 2 (resultLevels raw ms k) = some
      (yo ((generate_frequent_item_counts raw ms).1.map Prod.fst)
        ((generate_frequent_item_counts raw ms).2.2.filter
          (fun t => 2 ≤ t.length))
        (minSupportCountUsize ms raw.length)) ∧
    (∀ p ∈ resultLevels raw ms k, ∀ q ∈ p.2,
      q.1.length = p.1 ∧ q.1.Nodup ∧ q.1.Sorted (· ≤ ·) ∧
        q.2 = supportCount (normTxs raw ms) q.1) ∧
    (∀ p ∈ resultLevels raw ms k, 2 ≤ p.1 → ∀ q ∈ p.2,
      minSupportCountUsize ms raw.length ≤ q.2) ∧
    (∀ p ∈ resultLevels raw ms k, 3 ≤ p.1 → ∀ q ∈ p.2,
      ∀ s ∈ subsetsRemoveOne q.1,
      ∃ lvlPrev, lookA (p.1 - 1) (resultLevels raw ms k) =
        some lvlPrev ∧ s ∈ lvlPrev.map Prod.fst) ∧
    (∀ n, 3 ≤ n → n ≤ 2 + (k - 2) → ∀ lvlPrev lvl,
      lookA (n - 1) (resultLevels raw ms k) = some lvlPrev →
      lookA n (resultLevels raw ms k) = some lvl →
      ∀ c ∈ join_step (lvlPrev.map Prod.fst),
        minSupportCountUsize ms raw.length ≤
          supportCount (normTxs raw ms) c →
        (c, supportCount (normTxs raw ms) c) ∈ lvl) := by
  have hL0good : ∀ p ∈
      [(1, convert_to_itemset_counts
          (generate_frequent_item_counts raw ms).1),
       (2, yo ((generate_frequent_item_counts raw ms).1.map Prod.fst)
          ((generate_frequent_item_counts raw ms).2.2.filter
            (fun t => 2 ≤ t.length))
          (minSupportCountUsize ms raw.length))],
      ∀ q ∈ p.2, q.1.length = p.1 ∧ q.1.Nodup ∧
        q.1.Sorted (· ≤ ·) ∧
        q.2 = supportCount (normTxs raw ms) q.1 := by
    intro p hp q hq
    rcases List.mem_cons.mp hp with rfl | hp'
    · simp only at hq ⊢
      unfold convert_to_itemset_counts at hq
      obtain ⟨r, hr, rfl⟩ := List.mem_map.mp hq
      refine ⟨rfl, List.nodup_singleton _, List.sorted_singleton _, ?_⟩
      exact gfic_support_eq raw ms hnd hr
    · rw [List.mem_singleton] at hp'
      subst hp'
      simp only at hq ⊢
      obtain ⟨cand, hcand, hms, hq1, hq2⟩ := mem_yo hq
      obtain ⟨a, b, rfl, ha, hb, hab⟩ :=
        mem_combinations2_nodup (gfic_keysNodup raw ms) hcand
      have hq1nd : q.1.Nodup := by
        rw [hq1]
        exact insertionSort_pair_nodup hab
      have hq1len : q.1.length = 2 := by
        rw [hq1]
        exact insertionSort_pair_length a b
      have hsame : supportCount
          ((generate_frequent_item_counts raw ms).2.2.filter
            (fun t => 2 ≤ t.length)) [a, b] =
          supportCount
          ((generate_frequent_item_counts raw ms).2.2.filter
            (fun t => 2 ≤ t.length)) q.1 := by
        apply supportCount_eq_of_mem_iff
        intro i
        rw [hq1, insertionSort_pair_mem]
        simp
      refine ⟨hq1len, hq1nd, ?_, ?_⟩
      · rw [hq1]
        exact insertionSort_pair_sorted a b
      · rw [hq2, hsame,
          supportCount_filter_length hq1nd (le_of_eq hq1len.symm)]
        rfl
  have hL0thr : ∀ p ∈
      [(1, convert_to_itemset_counts
          (generate_frequent_item_counts raw ms).1),
       (2, yo ((generate_frequent_item_counts raw ms).1.map Prod.fst)
          ((generate_frequent_item_counts raw ms).2.2.filter
            (fun t => 2 ≤ t.length))
          (minSupportCountUsize ms raw.length))],
      2 ≤ p.1 → ∀ q ∈ p.2,
        minSupportCountUsize ms raw.length ≤ q.2 := by
    intro p hp h2 q hq
    rcases List.mem_cons.mp hp with rfl | hp'
    · simp at h2
    · rw [List.mem_singleton] at hp'
      subst hp'
      simp only at hq
      obtain ⟨cand, _, hms, _, hq2⟩ := mem_yo hq
      rw [hq2]
      exact hms
  have hL0anti : ∀ p ∈
      [(1, convert_to_itemset_counts
          (generate_frequent_item_counts raw ms).1),
       (2, yo ((generate_frequent_item_counts raw ms).1.map Prod.fst)
          ((generate_frequent_item_counts raw ms).2.2.filter
            (fun t => 2 ≤ t.length))
          (minSupportCountUsize ms raw.length))],
      3 ≤ p.1 → ∀ q ∈ p.2, ∀ s ∈ subsetsRemoveOne q.1,
      ∃ lvlPrev, lookA (p.1 - 1)
        [(1, convert_to_itemset_counts
            (generate_frequent_item_counts raw ms).1),
         (2, yo ((generate_frequent_item_counts raw ms).1.map Prod.fst)
            ((generate_frequent_item_counts raw ms).2.2.filter
              (fun t => 2 ≤ t.length))
            (minSupportCountUsize ms raw.length))] =
          some lvlPrev ∧ s ∈ lvlPrev.map Prod.fst := by
    intro p hp h3
    rcases List.mem_cons.mp hp with rfl | hp'
    · simp at h3
    · rw [List.mem_singleton] at hp'
      subst hp'
      simp at h3
  have hL0compl : ∀ n, 3 ≤ n → n ≤ 3 - 1 → ∀ lvlPrev lvl,
      lookA (n - 1)
        [(1, convert_to_itemset_counts
            (generate_frequent_item_counts raw ms).1),
         (2, yo ((generate_frequent_item_counts raw ms).1.map Prod.fst)
            ((generate_frequent_item_counts raw ms).2.2.filter
              (fun t => 2 ≤ t.length))
            (minSupportCountUsize ms raw.length))] = some lvlPrev →
      lookA n
        [(1, convert_to_itemset_counts
            (generate_frequent_item_counts raw ms).1),
         (2, yo ((generate_frequent_item_counts raw ms).1.map Prod.fst)
            ((generate_frequent_item_counts raw ms).2.2.filter
              (fun t => 2 ≤ t.length))
            (minSupportCountUsize ms raw.length))] = some lvl →
      ∀ c ∈ join_step (lvlPrev.map Prod.fst),
        minSupportCountUsize ms raw.length ≤
          supportCount (normTxs raw ms) c →
        (c, supportCount (normTxs raw ms) c) ∈ lvl := by
    intro n h3 hn
    omega
  have hL0keys :
      ([(1, convert_to_itemset_counts
          (generate_frequent_item_counts raw ms).1),
        (2, yo ((generate_frequent_item_counts raw ms).1.map Prod.fst)
          ((generate_frequent_item_counts raw ms).2.2.filter
            (fun t => 2 ≤ t.length))
          (minSupportCountUsize ms raw.length))].map Prod.fst) =
      List.range' 1 (3 - 1) := rfl
  have hloop := levelLoop_ok (minSupportCountUsize ms raw.length)
    (normTxs raw ms) (k - 2) 3
    [(1, convert_to_itemset_counts
        (generate_frequent_item_counts raw ms).1),
     (2, yo ((generate_frequent_item_counts raw ms).1.map Prod.fst)
        ((generate_frequent_item_counts raw ms).2.2.filter
          (fun t => 2 ≤ t.length))
        (minSupportCountUsize ms raw.length))]
    (by omega) hL0keys hL0good hL0thr hL0anti hL0compl
  have h31 : (3 : Nat) - 1 = 2 := rfl
  rw [h31] at hloop
  have hres : resultLevels raw ms k =
      levelLoop (minSupportCountUsize ms raw.length) (k - 2) 3
        ((normTxs raw ms).filter (fun t => 2 ≤ t.length))
        [(1, convert_to_itemset_counts
            (generate_frequent_item_counts raw ms).1),
         (2, yo ((generate_frequent_item_counts raw ms).1.map Prod.fst)
            ((generate_frequent_item_counts raw ms).2.2.filter
              (fun t => 2 ≤ t.length))
            (minSupportCountUsize ms raw.length))] := by
    unfold resultLevels
    rw [gfi_eq_else raw ms k hk]
    rfl
  obtain ⟨ck, cpres, cgood, cthr, canti, ccompl⟩ := hloop
  rw [← hres] at ck cpres cgood cthr canti ccompl
  refine ⟨ck, ?_, ?_, cgood, cthr, canti, ccompl⟩
  · exact cpres 1 _ rfl
  · exact cpres 2 _ rfl

/-! ### Threshold lemmas -/

theorem msc32_eval (ms : ℚ) (N c : Nat) (h : (⌈ms * N⌉ : ℤ) = c)
    (hc : c ≤ 2 ^ 32 - 1) : minSupportCountU32 ms N = c := by
  unfold minSupportCountU32 rustCastU32
  rw [h]
  simp only [Int.toNat_natCast]
  omega

theorem msc64_eval (ms : ℚ) (N c : Nat) (h : (⌈ms * N⌉ : ℤ) = c)
    (hc : c ≤ 2 ^ 64 - 1) : minSupportCountUsize ms N = c := by
  unfold minSupportCountUsize rustCastUsize
  rw [h]
  simp only [Int.toNat_natCast]
  omega

theorem ceil_le_N {ms : ℚ} {N : Nat} (h1 : ms ≤ 1) :
    (⌈ms * N⌉ : ℤ) ≤ N := by
  rw [Int.ceil_le]
  push_cast
  have hN : (0 : ℚ) ≤ N := Nat.cast_nonneg N
  nlinarith

/-- When the fraction is in `[0, 1]` and there are fewer than `2^32`
transactions, neither cast saturates and both computed thresholds equal
the ideal `ceil(min_support × N)`. -/
theorem thresholds_agree {ms : ℚ} {N : Nat} (h1 : ms ≤ 1)
    (hN : N < 2 ^ 32) :
    minSupportCountU32 ms N = idealMinSupportCount ms N ∧
    minSupportCountUsize ms N = idealMinSupportCount ms N := by
  have hle : (⌈ms * N⌉ : ℤ).toNat ≤ N := by
    rw [Int.toNat_le]
    exact le_trans (ceil_le_N h1) (le_refl _)
  unfold minSupportCountU32 minSupportCountUsize rustCastU32
    rustCastUsize idealMinSupportCount
  constructor <;> omega

/-! ### Pair-sorting and loop preservation -/

theorem insertionSort_pair_comm (a b : Nat) :
    List.insertionSort (· ≤ ·) [b, a] =
      List.insertionSort (· ≤ ·) [a, b] := by
  rw [insertionSort_pair, insertionSort_pair]
  by_cases hab : a ≤ b <;> by_cases hba : b ≤ a
  · have : a = b := le_antisymm hab hba
    subst this
    simp
  · simp [hab, hba]
  · simp [hab, hba]
  · omega

theorem levelLoop_preserves (msc : Nat) :
    ∀ (fuel size : Nat) (txs : List Transaction)
      (levels : FrequentItemsets) (n : Nat) (lvl : ItemsetCounts),
    lookA n levels = some lvl →
    lookA n (levelLoop msc fuel size txs levels) = some lvl := by
  intro fuel
  induction fuel with
  | zero =>
      intro size txs levels n lvl h
      exact h
  | succ fuel ih =>
      intro size txs levels n lvl h
      simp only [levelLoop]
      exact ih _ _ _ _ _ (lookA_append_left h)

/-! ### Bridge between the wrapping and the idealised model

The wrapping model differs from the idealised one only in the count
values: every stored count of the wrapping model is the idealised
count modulo `2^32`.  Since an idealised count never exceeds the
number of transactions, the two models coincide whenever the input has
fewer than `2^32` transactions. -/

@[simp] theorem wrapState_reverseLookup (st : IndexState) :
    (wrapState st).reverseLookup = st.reverseLookup := rfl

@[simp] theorem wrapState_inventory (st : IndexState) :
    (wrapState st).inventory = st.inventory := rfl

@[simp] theorem wrapState_lastItemId (st : IndexState) :
    (wrapState st).lastItemId = st.lastItemId := rfl

@[simp] theorem wrapState_itemCounts (st : IndexState) :
    (wrapState st).itemCounts = wrapCounts st.itemCounts := rfl

theorem bumpCountW_wrap (counts : ItemCounts) (id : Nat) :
    bumpCountW (wrapCounts counts) id = wrapCounts (bumpCount counts id) := by
  induction counts with
  | nil => norm_num [bumpCountW, bumpCount, wrapCounts]
  | cons p rest ih =>
      obtain ⟨k, v⟩ := p
      by_cases hk : k = id
      · subst hk
        simp [bumpCountW, bumpCount, wrapCounts, Nat.mod_add_mod]
      · simp [bumpCountW, bumpCount, wrapCounts, hk]
        simpa [wrapCounts] using ih

theorem processLabelW_wrap (st : IndexState) (l : Label) :
    processLabelW (wrapState st) l =
      (wrapState (processLabel st l).1, (processLabel st l).2) := by
  unfold processLabelW processLabel
  cases h : lookA l st.reverseLookup with
  | none => simp [h, wrapState, bumpCountW_wrap]
  | some id => simp [h, wrapState, bumpCountW_wrap]

theorem processItemsW_wrap : ∀ (ls : List Label) (st : IndexState),
    processItemsW (wrapState st) ls =
      (wrapState (processItems st ls).1, (processItems st ls).2) := by
  intro ls
  induction ls with
  | nil => intro st; rfl
  | cons l rest ih =>
      intro st
      simp only [processItemsW, processItems]
      rw [processLabelW_wrap]
      dsimp only
      rw [ih ((processLabel st l).1)]

theorem processTransactionW_wrap (st : IndexState) (rt : List Label) :
    processTransactionW (wrapState st) rt =
      (wrapState (processTransaction st rt).1,
       (processTransaction st rt).2) := by
  unfold processTransactionW processTransaction
  rw [processItemsW_wrap rt st]

theorem indexRunW_wrap : ∀ (raw : List (List Label)) (st : IndexState),
    indexRunW (wrapState st) raw =
      (wrapState (indexRun st raw).1, (indexRun st raw).2) := by
  intro raw
  induction raw with
  | nil => intro st; rfl
  | cons rt rest ih =>
      intro st
      simp only [indexRunW, indexRun]
      rw [processTransactionW_wrap]
      dsimp only
      rw [ih ((processTransaction st rt).1)]

theorem indexRun_length : ∀ (raw : List (List Label)) (st : IndexState),
    ((indexRun st raw).2).length = raw.length := by
  intro raw
  induction raw with
  | nil => intro st; rfl
  | cons rt rest ih =>
      intro st
      simp only [indexRun, List.length_cons]
      rw [ih]

theorem normTxs_length (raw : List (List Label)) (ms : ℚ) :
    (generate_frequent_item_counts raw ms).2.2.length = raw.length :=
  indexRun_length raw initState

theorem sum_le_length_of_le_one : ∀ l : List Nat,
    (∀ x ∈ l, x ≤ 1) → l.sum ≤ l.length := by
  intro l
  induction l with
  | nil => intro _; simp
  | cons x xs ih =>
      intro h
      simp only [List.sum_cons, List.length_cons]
      have hx := h x (List.mem_cons_self x xs)
      have hxs := ih (fun y hy => h y (List.mem_cons_of_mem x hy))
      omega

theorem indexRun_counts_le (raw : List (List Label))
    (hnd : ∀ rt ∈ raw, rt.Nodup) :
    ∀ p ∈ (indexRun initState raw).1.itemCounts, p.2 ≤ raw.length := by
  obtain ⟨hok, _, _, _, hcnt⟩ := indexRun_ok raw initState rlOk_init
  intro p hp
  obtain ⟨⟨l, i⟩, hlrl, hli⟩ := List.mem_map.mp (hok.countsDom p hp)
  have hlook : lookA l (indexRun initState raw).1.reverseLookup =
      some i :=
    lookA_eq_some_of_mem hok.keysNodup hlrl
  have hc := hcnt l i hlook
  have hlc : lookA p.1 (indexRun initState raw).1.itemCounts =
      some p.2 :=
    lookA_eq_some_of_mem hok.countsKeysNodup (by
      have hpp : (p.1, p.2) = p := rfl
      rw [hpp]
      exact hp)
  have hip : i = p.1 := hli
  rw [hip] at hc
  rw [hlc] at hc
  have hinit : (lookA p.1 initState.itemCounts).getD 0 = 0 := rfl
  rw [hinit] at hc
  simp only [Option.getD_some] at hc
  rw [hc, Nat.zero_add]
  have hsum : (raw.map (fun rt => rt.count l)).sum ≤
      (raw.map (fun rt => rt.count l)).length := by
    apply sum_le_length_of_le_one
    intro x hx
    obtain ⟨rt, hrt, rfl⟩ := List.mem_map.mp hx
    exact List.nodup_iff_count_le_one.mp (hnd rt hrt) l
  rw [List.length_map] at hsum
  exact hsum

theorem wrapCounts_eq_self : ∀ counts : ItemCounts,
    (∀ p ∈ counts, p.2 < 2 ^ 32) → wrapCounts counts = counts := by
  intro counts
  induction counts with
  | nil => intro _; rfl
  | cons p rest ih =>
      intro h
      obtain ⟨k, v⟩ := p
      have hv : v < 2 ^ 32 := h (k, v) (List.mem_cons_self _ _)
      simp only [wrapCounts, List.map_cons]
      rw [Nat.mod_eq_of_lt hv]
      have hrest := ih (fun q hq => h q (List.mem_cons_of_mem _ hq))
      simp only [wrapCounts] at hrest
      rw [hrest]

theorem indexRunW_eq (raw : List (List Label))
    (hnd : ∀ rt ∈ raw, rt.Nodup) (hN : raw.length < 2 ^ 32) :
    indexRunW initState raw = indexRun initState raw := by
  have h1 := indexRunW_wrap raw initState
  have h0 : wrapState initState = initState := rfl
  rw [h0] at h1
  rw [h1]
  have hst : wrapState (indexRun initState raw).1 =
      (indexRun initState raw).1 := by
    have hcle := indexRun_counts_le raw hnd
    unfold wrapState
    rw [wrapCounts_eq_self _ (fun p hp =>
      lt_of_le_of_lt (hcle p hp) hN)]
  rw [hst]

theorem gficW_eq (raw : List (List Label)) (ms : ℚ)
    (hnd : ∀ rt ∈ raw, rt.Nodup) (hN : raw.length < 2 ^ 32) :
    generate_frequent_item_countsW raw ms =
      generate_frequent_item_counts raw ms := by
  unfold generate_frequent_item_countsW generate_frequent_item_counts
  rw [indexRunW_eq raw hnd hN]

theorem gficW_eq_indexRunW (raw : List (List Label)) (ms : ℚ) :
    generate_frequent_item_countsW raw ms =
      ((indexRunW initState raw).1.itemCounts.filter
        (fun q => minSupportCountU32 ms raw.length ≤ q.2),
       (indexRunW initState raw).1.inventory,
       (indexRunW initState raw).2) := rfl

theorem normTxsW_eq (raw : List (List Label)) (ms : ℚ) :
    normTxsW raw ms = normTxs raw ms := by
  show (indexRunW initState raw).2 = (indexRun initState raw).2
  have h1 := indexRunW_wrap raw initState
  have h0 : wrapState initState = initState := rfl
  rw [h0] at h1
  rw [h1]

theorem supportCount_le_length (txs : List Transaction) (c : Itemset) :
    supportCount txs c ≤ txs.length :=
  List.length_filter_le _ _

theorem yoW_eq (keys : List Nat) (txs : List Transaction) (msc : Nat)
    (h : txs.length < 2 ^ 32) : yoW keys txs msc = yo keys txs msc := by
  unfold yoW yo
  apply List.filterMap_congr
  intro c hc
  have hlt : supportCount txs c < 2 ^ 32 :=
    lt_of_le_of_lt (supportCount_le_length txs c) h
  simp only
  rw [Nat.mod_eq_of_lt hlt]

theorem gficcW_eq (cands : List Itemset) (txs : List Transaction)
    (msc : Nat) (h : txs.length < 2 ^ 32) :
    generate_frequent_itemset_counts_from_candidatesW cands txs msc =
      generate_frequent_itemset_counts_from_candidates cands txs msc := by
  unfold generate_frequent_itemset_counts_from_candidatesW
    generate_frequent_itemset_counts_from_candidates
  apply List.filterMap_congr
  intro c hc
  have hlt : supportCount txs c < 2 ^ 32 :=
    lt_of_le_of_lt (supportCount_le_length txs c) h
  simp only
  rw [Nat.mod_eq_of_lt hlt]

theorem levelLoopW_eq (msc : Nat) : ∀ (fuel size : Nat)
    (txs : List Transaction) (levels : FrequentItemsets),
    txs.length < 2 ^ 32 →
    levelLoopW msc fuel size txs levels =
      levelLoop msc fuel size txs levels := by
  intro fuel
  induction fuel with
  | zero => intro size txs levels h; rfl
  | succ fuel ih =>
      intro size txs levels h
      simp only [levelLoopW, levelLoop]
      have hlen : (txs.filter (fun t => size ≤ t.length)).length <
          2 ^ 32 :=
        lt_of_le_of_lt (List.length_filter_le _ _) h
      rw [gficcW_eq _ _ _ hlen, ih _ _ _ hlen]

theorem gfiW_eq_k1 (raw : List (List Label)) (ms : ℚ) :
    generate_frequent_itemsetsW raw ms 1 =
      ([(1, convert_to_itemset_counts
          (generate_frequent_item_countsW raw ms).1)],
       (generate_frequent_item_countsW raw ms).2.1) := rfl

theorem gfiW_eq_else (raw : List (List Label)) (ms : ℚ) (k : Nat)
    (hk : k ≠ 1) :
    generate_frequent_itemsetsW raw ms k =
      (levelLoopW (minSupportCountUsize ms raw.length) (k - 2) 3
        ((generate_frequent_item_countsW raw ms).2.2.filter
          (fun t => 2 ≤ t.length))
        [(1, convert_to_itemset_counts
            (generate_frequent_item_countsW raw ms).1),
         (2, yoW ((generate_frequent_item_countsW raw ms).1.map Prod.fst)
            ((generate_frequent_item_countsW raw ms).2.2.filter
              (fun t => 2 ≤ t.length))
            (minSupportCountUsize ms raw.length))],
       (generate_frequent_item_countsW raw ms).2.1) := by
  simp only [generate_frequent_itemsetsW]
  rw [if_neg hk]

theorem gfiW_eq (raw : List (List Label)) (ms : ℚ) (k : Nat)
    (hnd : ∀ rt ∈ raw, rt.Nodup) (hN : raw.length < 2 ^ 32) :
    generate_frequent_itemsetsW raw ms k =
      generate_frequent_itemsets raw ms k := by
  by_cases hk : k = 1
  · subst hk
    rw [gfiW_eq_k1, gfi_eq_k1, gficW_eq raw ms hnd hN]
  · rw [gfiW_eq_else raw ms k hk, gfi_eq_else raw ms k hk,
      gficW_eq raw ms hnd hN]
    have htxs : ((generate_frequent_item_counts raw ms).2.2.filter
        (fun t => 2 ≤ t.length)).length < 2 ^ 32 :=
      lt_of_le_of_lt (List.length_filter_le _ _)
        (by rw [normTxs_length raw ms]; exact hN)
    rw [yoW_eq _ _ _ htxs, levelLoopW_eq _ _ _ _ _ htxs]

theorem resultLevelsW_eq (raw : List (List Label)) (ms : ℚ) (k : Nat)
    (hnd : ∀ rt ∈ raw, rt.Nodup) (hN : raw.length < 2 ^ 32) :
    resultLevelsW raw ms k = resultLevels raw ms k := by
  unfold resultLevelsW resultLevels
  rw [gfiW_eq raw ms k hnd hN]

/-! ### Closed forms for the wrapping model's counterexample inputs -/

theorem indexRunW_append (xs ys : List (List Label)) :
    ∀ st : IndexState,
    indexRunW st (xs ++ ys) =
      ((indexRunW (indexRunW st xs).1 ys).1,
       (indexRunW st xs).2 ++ (indexRunW (indexRunW st xs).1 ys).2) := by
  induction xs with
  | nil => intro st; rfl
  | cons rt rest ih =>
      intro st
      have hunfold : indexRunW st ((rt :: rest) ++ ys) =
          ((indexRunW (processTransactionW st rt).1 (rest ++ ys)).1,
           (processTransactionW st rt).2 ::
             (indexRunW (processTransactionW st rt).1 (rest ++ ys)).2) :=
        rfl
      rw [hunfold, ih]
      rfl

theorem indexRunW_replicate_closed (m : Nat) : ∀ c : Nat, c < 2 ^ 32 →
    indexRunW (⟨[("A", 0)], [(0, "A")], 1, [(0, c)]⟩ : IndexState)
      (List.replicate m ["A"]) =
    (⟨[("A", 0)], [(0, "A")], 1, [(0, (c + m) % 2 ^ 32)]⟩,
     List.replicate m [0]) := by
  induction m with
  | zero =>
      intro c hc
      rw [Nat.add_zero, Nat.mod_eq_of_lt hc]
      rfl
  | succ m ih =>
      intro c hc
      have hpt : processTransactionW
          (⟨[("A", 0)], [(0, "A")], 1, [(0, c)]⟩ : IndexState) ["A"] =
          (⟨[("A", 0)], [(0, "A")], 1, [(0, (c + 1) % 2 ^ 32)]⟩, [0]) :=
        rfl
      have hstep : indexRunW
          (⟨[("A", 0)], [(0, "A")], 1, [(0, c)]⟩ : IndexState)
          (List.replicate (m + 1) ["A"]) =
          ((indexRunW (⟨[("A", 0)], [(0, "A")], 1,
              [(0, (c + 1) % 2 ^ 32)]⟩ : IndexState)
              (List.replicate m ["A"])).1,
           [0] :: (indexRunW (⟨[("A", 0)], [(0, "A")], 1,
              [(0, (c + 1) % 2 ^ 32)]⟩ : IndexState)
              (List.replicate m ["A"])).2) := by
        rw [List.replicate_succ]
        have h0 : indexRunW
            (⟨[("A", 0)], [(0, "A")], 1, [(0, c)]⟩ : IndexState)
            (["A"] :: List.replicate m ["A"]) =
            ((indexRunW (processTransactionW
                (⟨[("A", 0)], [(0, "A")], 1, [(0, c)]⟩ : IndexState)
                ["A"]).1 (List.replicate m ["A"])).1,
             (processTransactionW
                (⟨[("A", 0)], [(0, "A")], 1, [(0, c)]⟩ : IndexState)
                ["A"]).2 ::
               (indexRunW (processTransactionW
                 (⟨[("A", 0)], [(0, "A")], 1, [(0, c)]⟩ : IndexState)
                 ["A"]).1 (List.replicate m ["A"])).2) := rfl
        rw [h0, hpt]
      rw [hstep, ih ((c + 1) % 2 ^ 32) (Nat.mod_lt _ (by norm_num))]
      rw [Nat.mod_add_mod]
      have harith : c + 1 + m = c + (m + 1) := by omega
      rw [harith, List.replicate_succ]

theorem indexRunW_replicateAB_closed (m : Nat) : ∀ c0 c1 : Nat,
    c0 < 2 ^ 32 → c1 < 2 ^ 32 →
    indexRunW (⟨[("B", 1), ("A", 0)], [(1, "B"), (0, "A")], 2,
        [(0, c0), (1, c1)]⟩ : IndexState)
      (List.replicate m ["A", "B"]) =
    (⟨[("B", 1), ("A", 0)], [(1, "B"), (0, "A")], 2,
        [(0, (c0 + m) % 2 ^ 32), (1, (c1 + m) % 2 ^ 32)]⟩,
     List.replicate m [0, 1]) := by
  induction m with
  | zero =>
      intro c0 c1 h0 h1
      rw [Nat.add_zero, Nat.add_zero, Nat.mod_eq_of_lt h0,
        Nat.mod_eq_of_lt h1]
      rfl
  | succ m ih =>
      intro c0 c1 h0 h1
      have hpt : processTransactionW
          (⟨[("B", 1), ("A", 0)], [(1, "B"), (0, "A")], 2,
            [(0, c0), (1, c1)]⟩ : IndexState) ["A", "B"] =
          (⟨[("B", 1), ("A", 0)], [(1, "B"), (0, "A")], 2,
            [(0, (c0 + 1) % 2 ^ 32), (1, (c1 + 1) % 2 ^ 32)]⟩,
           [0, 1]) := rfl
      have hstep : indexRunW
          (⟨[("B", 1), ("A", 0)], [(1, "B"), (0, "A")], 2,
            [(0, c0), (1, c1)]⟩ : IndexState)
          (List.replicate (m + 1) ["A", "B"]) =
          ((indexRunW (⟨[("B", 1), ("A", 0)], [(1, "B"), (0, "A")], 2,
              [(0, (c0 + 1) % 2 ^ 32), (1, (c1 + 1) % 2 ^ 32)]⟩ :
                IndexState)
              (List.replicate m ["A", "B"])).1,
           [0, 1] :: (indexRunW (⟨[("B", 1), ("A", 0)],
              [(1, "B"), (0, "A")], 2,
              [(0, (c0 + 1) % 2 ^ 32), (1, (c1 + 1) % 2 ^ 32)]⟩ :
                IndexState)
              (List.replicate m ["A", "B"])).2) := by
        rw [List.replicate_succ]
        have hh : indexRunW
            (⟨[("B", 1), ("A", 0)], [(1, "B"), (0, "A")], 2,
              [(0, c0), (1, c1)]⟩ : IndexState)
            (["A", "B"] :: List.replicate m ["A", "B"]) =
            ((indexRunW (processTransactionW
                (⟨[("B", 1), ("A", 0)], [(1, "B"), (0, "A")], 2,
                  [(0, c0), (1, c1)]⟩ : IndexState)
                ["A", "B"]).1 (List.replicate m ["A", "B"])).1,
             (processTransactionW
                (⟨[("B", 1), ("A", 0)], [(1, "B"), (0, "A")], 2,
                  [(0, c0), (1, c1)]⟩ : IndexState)
                ["A", "B"]).2 ::
               (indexRunW (processTransactionW
                 (⟨[("B", 1), ("A", 0)], [(1, "B"), (0, "A")], 2,
                   [(0, c0), (1, c1)]⟩ : IndexState)
                 ["A", "B"]).1 (List.replicate m ["A", "B"])).2) := rfl
        rw [hh, hpt]
      rw [hstep, ih ((c0 + 1) % 2 ^ 32) ((c1 + 1) % 2 ^ 32)
        (Nat.mod_lt _ (by norm_num)) (Nat.mod_lt _ (by norm_num))]
      rw [Nat.mod_add_mod, Nat.mod_add_mod]
      have ha : c0 + 1 + m = c0 + (m + 1) := by omega
      have hb : c1 + 1 + m = c1 + (m + 1) := by omega
      rw [ha, hb, List.replicate_succ]

theorem indexRunW_replicateA_from2_closed (m : Nat) : ∀ c0 c1 : Nat,
    c0 < 2 ^ 32 →
    indexRunW (⟨[("B", 1), ("A", 0)], [(1, "B"), (0, "A")], 2,
        [(0, c0), (1, c1)]⟩ : IndexState)
      (List.replicate m ["A"]) =
    (⟨[("B", 1), ("A", 0)], [(1, "B"), (0, "A")], 2,
        [(0, (c0 + m) % 2 ^ 32), (1, c1)]⟩,
     List.replicate m [0]) := by
  induction m with
  | zero =>
      intro c0 c1 h0
      rw [Nat.add_zero, Nat.mod_eq_of_lt h0]
      rfl
  | succ m ih =>
      intro c0 c1 h0
      have hpt : processTransactionW
          (⟨[("B", 1), ("A", 0)], [(1, "B"), (0, "A")], 2,
            [(0, c0), (1, c1)]⟩ : IndexState) ["A"] =
          (⟨[("B", 1), ("A", 0)], [(1, "B"), (0, "A")], 2,
            [(0, (c0 + 1) % 2 ^ 32), (1, c1)]⟩, [0]) := rfl
      have hstep : indexRunW
          (⟨[("B", 1), ("A", 0)], [(1, "B"), (0, "A")], 2,
            [(0, c0), (1, c1)]⟩ : IndexState)
          (List.replicate (m + 1) ["A"]) =
          ((indexRunW (⟨[("B", 1), ("A", 0)], [(1, "B"), (0, "A")], 2,
              [(0, (c0 + 1) % 2 ^ 32), (1, c1)]⟩ : IndexState)
              (List.replicate m ["A"])).1,
           [0] :: (indexRunW (⟨[("B", 1), ("A", 0)],
              [(1, "B"), (0, "A")], 2,
              [(0, (c0 + 1) % 2 ^ 32), (1, c1)]⟩ : IndexState)
              (List.replicate m ["A"])).2) := by
        rw [List.replicate_succ]
        have hh : indexRunW
            (⟨[("B", 1), ("A", 0)], [(1, "B"), (0, "A")], 2,
              [(0, c0), (1, c1)]⟩ : IndexState)
            (["A"] :: List.replicate m ["A"]) =
            ((indexRunW (processTransactionW
                (⟨[("B", 1), ("A", 0)], [(1, "B"), (0, "A")], 2,
                  [(0, c0), (1, c1)]⟩ : IndexState)
                ["A"]).1 (List.replicate m ["A"])).1,
             (processTransactionW
                (⟨[("B", 1), ("A", 0)], [(1, "B"), (0, "A")], 2,
                  [(0, c0), (1, c1)]⟩ : IndexState)
                ["A"]).2 ::
               (indexRunW (processTransactionW
                 (⟨[("B", 1), ("A", 0)], [(1, "B"), (0, "A")], 2,
                   [(0, c0), (1, c1)]⟩ : IndexState)
                 ["A"]).1 (List.replicate m ["A"])).2) := rfl
        rw [hh, hpt]
      rw [hstep, ih ((c0 + 1) % 2 ^ 32) c1 (Nat.mod_lt _ (by norm_num))]
      rw [Nat.mod_add_mod]
      have ha : c0 + 1 + m = c0 + (m + 1) := by omega
      rw [ha, List.replicate_succ]

/-! ### Claim theorems -/

/-- Support-count exactness over the idealised (unbounded-counter)
model: every itemset appearing in any per-level result is paired with
a count equal to the exact number of normalized transactions
containing all of its items.  The `Nodup` hypothesis reflects that raw
transactions are `HashSet`s. -/
theorem counts_exact_ideal (raw : List (List Label))
    (ms : ℚ) (k : Nat) (hnd : ∀ rt ∈ raw, rt.Nodup) :
    ∀ size lvl, lookA size (resultLevels raw ms k) = some lvl →
    ∀ q ∈ lvl, q.2 = supportCount (normTxs raw ms) q.1 := by
  by_cases hk : k = 1
  · subst hk
    intro size lvl hl q hq
    have hres : resultLevels raw ms 1 =
        [(1, convert_to_itemset_counts
          (generate_frequent_item_counts raw ms).1)] := by
      unfold resultLevels
      rw [gfi_eq_k1]
    rw [hres] at hl
    by_cases hs : (1 : Nat) = size
    · rw [lookA_cons, if_pos hs] at hl
      simp only [Option.some.injEq] at hl
      subst hl
      obtain ⟨r, hr, rfl⟩ := List.mem_map.mp hq
      exact gfic_support_eq raw ms hnd hr
    · rw [lookA_cons, if_neg hs] at hl
      simp at hl
  · obtain ⟨_, _, _, cgood, _, _, _⟩ := gfi_master raw ms k hnd hk
    intro size lvl hl q hq
    exact (cgood (size, lvl) (mem_of_lookA_eq_some hl) q hq).2.2.2

/-- C4 counterexample: with max level `k = 0`, the input `[{A}]` and
min-support 1 produce a *non-empty* per-level mapping (levels 1 and 2
are inserted by the `else` branch of the driver), contradicting the
claim that the result mapping has no entries. -/
theorem claim_C4_counterexample :
    ¬ (resultLevels [["A"]] 1 0 = []) := by
  intro h
  have h12 : (resultLevels [["A"]] 1 0).map Prod.fst = [1, 2] := rfl
  rw [h] at h12
  simp at h12

/-- C4 amended: with max level `k = 0`, `generate_frequent_itemsets`
behaves exactly as with `k = 2`: it runs the `else` branch, computing
and returning levels 1 and 2 (and no further levels), rather than an
empty result. -/
theorem claim_C4_amended (raw : List (List Label)) (ms : ℚ) :
    generate_frequent_itemsets raw ms 0 =
      generate_frequent_itemsets raw ms 2 ∧
    (resultLevels raw ms 0).map Prod.fst = [1, 2] :=
  ⟨rfl, rfl⟩

/-- C5 counterexample: on an input with `2^32` transactions and
min-support fraction 1 (values at which `f32` arithmetic is exact),
the level-1 threshold (`ceil` cast to `u32`, which saturates at
`u32::MAX = 2^32 - 1`) differs from the driver's threshold (`ceil`
cast to `usize`, which is `2^32`). -/
theorem claim_C5_counterexample :
    ¬ (minSupportCountU32 1 (List.replicate (2 ^ 32) ["A"]).length =
       minSupportCountUsize 1 (List.replicate (2 ^ 32) ["A"]).length) := by
  rw [List.length_replicate]
  have hceil : (⌈(1 : ℚ) * ((2 ^ 32 : Nat) : ℚ)⌉ : ℤ) = 2 ^ 32 := by
    push_cast
    norm_num
  unfold minSupportCountU32 minSupportCountUsize rustCastU32 rustCastUsize
  rw [hceil]
  norm_num
  omega

/-- C5 amended: on the domain where every `f32` operation of the
source is exact — the min-support fraction is a representable `f32`
value in `[0, 1]`, there are at most `2^24` transactions (so `N as
f32` is exact), and the product `min_support × N` is exactly
representable in `f32` (so the `f32` multiply returns it and its
ceiling, an integer at most `2^24`, is exact and below both cast
bounds) — the two computed thresholds both equal the single ideal
value `ceil(min_support_fraction × N)`, and in particular agree. -/
theorem claim_C5_amended (ms : ℚ) (N : Nat) (h0 : 0 ≤ ms) (h1 : ms ≤ 1)
    (hms : repF32 ms) (hN : N ≤ 2 ^ 24)
    (hprod : repF32 (ms * N)) :
    minSupportCountU32 ms N = idealMinSupportCount ms N ∧
    minSupportCountUsize ms N = idealMinSupportCount ms N ∧
    minSupportCountU32 ms N = minSupportCountUsize ms N := by
  obtain ⟨ha, hb⟩ := thresholds_agree h1
    (lt_of_le_of_lt hN (by norm_num))
  exact ⟨ha, hb, ha.trans hb.symm⟩

/-- Witness for C5's amended form. -/
theorem claim_C5_witness :
    ((0 : ℚ) ≤ 1/2 ∧ (1/2 : ℚ) ≤ 1 ∧ repF32 (1/2) ∧
      (4 : Nat) ≤ 2 ^ 24 ∧ repF32 ((1/2) * ((4 : Nat) : ℚ))) ∧
    (minSupportCountU32 (1/2) 4 = idealMinSupportCount (1/2) 4 ∧
     minSupportCountUsize (1/2) 4 = idealMinSupportCount (1/2) 4 ∧
     minSupportCountU32 (1/2) 4 = minSupportCountUsize (1/2) 4) :=
  ⟨⟨by norm_num, by norm_num,
    ⟨1, -1, by norm_num, by norm_num, by norm_num,
      by rw [abs_of_pos (by norm_num : (0 : ℚ) < 1/2)]; norm_num⟩,
    by norm_num,
    ⟨2, 0, by norm_num, by norm_num, by norm_num, by norm_num⟩⟩,
   claim_C5_amended (1/2) 4 (by norm_num) (by norm_num)
     ⟨1, -1, by norm_num, by norm_num, by norm_num,
      by rw [abs_of_pos (by norm_num : (0 : ℚ) < 1/2)]; norm_num⟩
     (by norm_num)
     ⟨2, 0, by norm_num, by norm_num, by norm_num, by norm_num⟩⟩

/-- C6: an empty transaction collection yields empty counts, empty
inventory and empty transactions from `generate_frequent_item_counts`,
a derived minimum support count of 0, and
`generate_frequent_itemsets` with `max_level = 2` returns an empty
inventory with levels 1 and 2 both present as empty mappings. -/
theorem claim_C6_empty_input (ms : ℚ) (h0 : 0 ≤ ms) (h1 : ms ≤ 1) :
    generate_frequent_item_counts [] ms = ([], [], []) ∧
    minSupportCountU32 ms 0 = 0 ∧
    generate_frequent_itemsets [] ms 2 = ([(1, []), (2, [])], []) := by
  refine ⟨rfl, ?_, rfl⟩
  apply msc32_eval _ _ 0 _ (by norm_num)
  have hz : ms * ((0 : Nat) : ℚ) = 0 := by
    push_cast
    ring
  rw [hz]
  simp

/-- Witness for C6. -/
theorem claim_C6_witness :
    ((0 : ℚ) ≤ 1/2 ∧ (1/2 : ℚ) ≤ 1) ∧
    (generate_frequent_item_counts [] (1/2) = ([], [], []) ∧
     minSupportCountU32 (1/2) 0 = 0 ∧
     generate_frequent_itemsets [] (1/2) 2 = ([(1, []), (2, [])], [])) :=
  ⟨⟨by norm_num, by norm_num⟩,
   claim_C6_empty_input (1/2) (by norm_num) (by norm_num)⟩

/-- C7: with max level `k = 1` the driver short-circuits: the result
mapping holds exactly one entry, level 1, whose value is the singleton
itemsets of the retained frequent items with their counts, alongside
the inventory; no level-2 construction appears in the result. -/
theorem claim_C7_k1_short_circuit (raw : List (List Label)) (ms : ℚ) :
    (resultLevels raw ms 1).map Prod.fst = [1] ∧
    lookA 1 (resultLevels raw ms 1) = some (convert_to_itemset_counts
      (generate_frequent_item_counts raw ms).1) ∧
    (∀ q, q ∈ convert_to_itemset_counts
        (generate_frequent_item_counts raw ms).1 ↔
      ∃ r ∈ (generate_frequent_item_counts raw ms).1,
        q = ([r.1], r.2)) ∧
    (generate_frequent_itemsets raw ms 1).2 =
      (generate_frequent_item_counts raw ms).2.1 := by
  refine ⟨rfl, rfl, ?_, rfl⟩
  intro q
  unfold convert_to_itemset_counts
  rw [List.mem_map]
  constructor
  · rintro ⟨r, hr, rfl⟩
    exact ⟨r, hr, rfl⟩
  · rintro ⟨r, hr, rfl⟩
    exact ⟨r, hr, rfl⟩

/-- Anti-monotonicity over the idealised (unbounded-counter) model:
for every level `n ≥ 2` present in the result, every itemset of that
level has each of its `(n-1)`-element subsets (the length-`(n-1)`
sublists of its sorted, duplicate-free key) present as a key of the
level-`(n-1)` result, with a support count at least as large. -/
theorem anti_mono_ideal (raw : List (List Label)) (ms : ℚ)
    (k : Nat) (hnd : ∀ rt ∈ raw, rt.Nodup) :
    ∀ n lvl, 2 ≤ n → lookA n (resultLevels raw ms k) = some lvl →
    ∀ q ∈ lvl, ∃ lvlPrev,
      lookA (n - 1) (resultLevels raw ms k) = some lvlPrev ∧
      ∀ s, List.Sublist s q.1 → s.length + 1 = q.1.length →
        ∃ cnt', (s, cnt') ∈ lvlPrev ∧ q.2 ≤ cnt' := by
  by_cases hk : k = 1
  · subst hk
    intro n lvl h2 hl
    exfalso
    have hres : resultLevels raw ms 1 =
        [(1, convert_to_itemset_counts
          (generate_frequent_item_counts raw ms).1)] := by
      unfold resultLevels
      rw [gfi_eq_k1]
    rw [hres, lookA_cons, if_neg (by omega : ¬ (1 : Nat) = n)] at hl
    simp at hl
  · obtain ⟨ck, c1, c2, cgood, _, canti, _⟩ := gfi_master raw ms k hnd hk
    intro n lvl h2 hl q hq
    have hpmem : (n, lvl) ∈ resultLevels raw ms k :=
      mem_of_lookA_eq_some hl
    by_cases h3 : 3 ≤ n
    · have hkeysn : n ∈ (resultLevels raw ms k).map Prod.fst :=
        keys_mem_of_mem hpmem
      rw [ck, mem_range1] at hkeysn
      have hn1 : n - 1 ∈ (resultLevels raw ms k).map Prod.fst := by
        rw [ck, mem_range1]
        omega
      obtain ⟨lvlPrev, hlp⟩ := lookA_isSome_of_mem_keys hn1
      refine ⟨lvlPrev, hlp, ?_⟩
      intro s hsub hslen
      have hsmem : s ∈ subsetsRemoveOne q.1 :=
        sublist_mem_subsetsRemoveOne hsub hslen
      obtain ⟨lvlPrev', hlp', hs'⟩ :=
        canti (n, lvl) hpmem h3 q hq s hsmem
      have hlp'' : lookA (n - 1) (resultLevels raw ms k) =
          some lvlPrev' := hlp'
      have heq : lvlPrev = lvlPrev' := by
        rw [hlp] at hlp''
        simpa using hlp''
      subst heq
      obtain ⟨r, hr, hr1⟩ := List.mem_map.mp hs'
      have hrmem : (s, r.2) ∈ lvlPrev := by
        rw [← hr1, Prod.mk.eta]
        exact hr
      refine ⟨r.2, hrmem, ?_⟩
      have hq2 : q.2 = supportCount (normTxs raw ms) q.1 :=
        (cgood (n, lvl) hpmem q hq).2.2.2
      have hr2 : r.2 = supportCount (normTxs raw ms) s := by
        have := (cgood (n - 1, lvlPrev)
          (mem_of_lookA_eq_some hlp'') r hr).2.2.2
        rw [hr1] at this
        exact this
      rw [hq2, hr2]
      exact supportCount_anti (fun i hi => hsub.subset hi) _
    · have hn2 : n = 2 := by omega
      subst hn2
      have hlvl : lvl = yo
          ((generate_frequent_item_counts raw ms).1.map Prod.fst)
          ((generate_frequent_item_counts raw ms).2.2.filter
            (fun t => 2 ≤ t.length))
          (minSupportCountUsize ms raw.length) := by
        rw [c2] at hl
        simpa using hl.symm
      refine ⟨convert_to_itemset_counts
        (generate_frequent_item_counts raw ms).1, c1, ?_⟩
      intro s hsub hslen
      subst hlvl
      obtain ⟨cand, hcand, _, hq1, _⟩ := mem_yo hq
      obtain ⟨a, b, rfl, ha, hb, hab⟩ :=
        mem_combinations2_nodup (gfic_keysNodup raw ms) hcand
      have hq1len : q.1.length = 2 := by
        rw [hq1]
        exact insertionSort_pair_length a b
      have hslen1 : s.length = 1 := by omega
      obtain ⟨e, rfl⟩ : ∃ e, s = [e] := by
        cases s with
        | nil => simp at hslen1
        | cons e tail =>
            have htail : tail = [] := by
              simpa using hslen1
            subst htail
            exact ⟨e, rfl⟩
      have he : e ∈ q.1 := hsub.subset (by simp)
      have heab : e = a ∨ e = b := by
        rw [hq1] at he
        exact (insertionSort_pair_mem a b e).mp he
      have hekeys : e ∈
          (generate_frequent_item_counts raw ms).1.map Prod.fst := by
        rcases heab with rfl | rfl
        · exact ha
        · exact hb
      obtain ⟨r, hr, hr1⟩ := List.mem_map.mp hekeys
      refine ⟨r.2, ?_, ?_⟩
      · unfold convert_to_itemset_counts
        refine List.mem_map.mpr ⟨r, hr, ?_⟩
        rw [hr1]
      · have hq2 : q.2 = supportCount (normTxs raw ms) q.1 :=
          (cgood (2, _) hpmem q hq).2.2.2
        have hr2 : r.2 = supportCount (normTxs raw ms) [e] := by
          have := gfic_support_eq raw ms hnd hr
          rw [hr1] at this
          exact this
        rw [hq2, hr2]
        refine supportCount_anti ?_ _
        intro i hi
        rw [List.mem_singleton] at hi
        subst hi
        exact he

/-- C8: the level-1 pruning removes entries only from the returned
item-count mapping: the inventory has an entry for every raw label of
every input transaction, and every normalized transaction carries the
identifier of every label of its source transaction (frequent or
not). -/
theorem claim_C8_prune_only_counts (raw : List (List Label)) (ms : ℚ) :
    (∀ rt ∈ raw, ∀ l ∈ rt, ∃ i,
      (i, l) ∈ (generate_frequent_item_counts raw ms).2.1) ∧
    List.Forall₂ (fun rt t => ∀ l ∈ rt, ∃ i,
      (i, l) ∈ (generate_frequent_item_counts raw ms).2.1 ∧ i ∈ t)
      raw (generate_frequent_item_counts raw ms).2.2 := by
  obtain ⟨hok, _, hseen, hall, _⟩ := indexRun_ok raw initState rlOk_init
  have hinv : (generate_frequent_item_counts raw ms).2.1 =
      (indexRun initState raw).1.inventory := rfl
  have htxs : (generate_frequent_item_counts raw ms).2.2 =
      (indexRun initState raw).2 := rfl
  constructor
  · intro rt hrt l hl
    obtain ⟨i, hi⟩ := hseen rt hrt l hl
    refine ⟨i, ?_⟩
    rw [hinv]
    exact (hok.invFlip i l).mpr (mem_of_lookA_eq_some hi)
  · rw [htxs]
    refine forall₂_imp_mem hall ?_
    intro rt t hrt _ hR l hl
    obtain ⟨i, hi⟩ := hseen rt hrt l hl
    refine ⟨i, ?_, ?_⟩
    · rw [hinv]
      exact (hok.invFlip i l).mpr (mem_of_lookA_eq_some hi)
    · exact (hR i).mpr ⟨l, hl, hi⟩

/-- Witness for C8: applying the theorem at a concrete input yields a
concrete inventory entry. -/
theorem claim_C8_witness :
    ∃ i, (i, "B") ∈ (generate_frequent_item_counts [["A", "B"]] 1).2.1 :=
  (claim_C8_prune_only_counts [["A", "B"]] 1).1 ["A", "B"] (by decide)
    "B" (by decide)

/-- C10: when the derived minimum support count is 0, the level-2
result retains every 2-combination of the retained level-1 items,
each paired with its exact (possibly zero) support count. -/
theorem claim_C10_zero_support_pairs (raw : List (List Label)) (ms : ℚ)
    (k : Nat) (hmsc : minSupportCountUsize ms raw.length = 0)
    (hk : k ≠ 1) :
    ∀ a b, a ∈ (generate_frequent_item_counts raw ms).1.map Prod.fst →
      b ∈ (generate_frequent_item_counts raw ms).1.map Prod.fst →
      a ≠ b →
      ∃ lvl2, lookA 2 (resultLevels raw ms k) = some lvl2 ∧
        (List.insertionSort (· ≤ ·) [a, b],
          supportCount (normTxs raw ms) [a, b]) ∈ lvl2 := by
  intro a b ha hb hab
  have hres : resultLevels raw ms k =
      levelLoop (minSupportCountUsize ms raw.length) (k - 2) 3
        ((generate_frequent_item_counts raw ms).2.2.filter
          (fun t => 2 ≤ t.length))
        [(1, convert_to_itemset_counts
            (generate_frequent_item_counts raw ms).1),
         (2, yo ((generate_frequent_item_counts raw ms).1.map Prod.fst)
            ((generate_frequent_item_counts raw ms).2.2.filter
              (fun t => 2 ≤ t.length))
            (minSupportCountUsize ms raw.length))] := by
    unfold resultLevels
    rw [gfi_eq_else raw ms k hk]
  have hl2 : lookA 2 (resultLevels raw ms k) = some
      (yo ((generate_frequent_item_counts raw ms).1.map Prod.fst)
        ((generate_frequent_item_counts raw ms).2.2.filter
          (fun t => 2 ≤ t.length))
        (minSupportCountUsize ms raw.length)) := by
    rw [hres]
    exact levelLoop_preserves _ _ _ _ _ _ _ rfl
  refine ⟨_, hl2, ?_⟩
  have hnd2 : ([a, b] : List Nat).Nodup := by simp [hab]
  have hflt : supportCount
      ((generate_frequent_item_counts raw ms).2.2.filter
        (fun t => 2 ≤ t.length)) [a, b] =
      supportCount (normTxs raw ms) [a, b] :=
    supportCount_filter_length hnd2 (by simp)
  rcases combinations2_complete ha hb hab with hc | hc
  · have hzero : minSupportCountUsize ms raw.length ≤ supportCount
        ((generate_frequent_item_counts raw ms).2.2.filter
          (fun t => 2 ≤ t.length)) [a, b] := by
      rw [hmsc]
      omega
    have := yo_complete hc hzero
    rw [hflt] at this
    exact this
  · have hzero : minSupportCountUsize ms raw.length ≤ supportCount
        ((generate_frequent_item_counts raw ms).2.2.filter
          (fun t => 2 ≤ t.length)) [b, a] := by
      rw [hmsc]
      omega
    have := yo_complete hc hzero
    have hsame : supportCount
        ((generate_frequent_item_counts raw ms).2.2.filter
          (fun t => 2 ≤ t.length)) [b, a] =
        supportCount
        ((generate_frequent_item_counts raw ms).2.2.filter
          (fun t => 2 ≤ t.length)) [a, b] := by
      apply supportCount_eq_of_mem_iff
      intro i
      constructor <;> intro h <;> simpa [or_comm] using h
    rw [insertionSort_pair_comm, hsame, hflt] at this
    exact this

/-! ### Panic-freedom (C9) -/

theorem processLabelP_eq (st : IndexState) (l : Label) :
    processLabelP st l = some (processLabel st l) := by
  unfold processLabelP processLabel
  cases h : lookA l st.reverseLookup with
  | some i => simp [h]
  | none => simp [h]

theorem processItemsP_eq (rt : List Label) : ∀ st : IndexState,
    processItemsP st rt = some (processItems st rt) := by
  induction rt with
  | nil => intro st; rfl
  | cons l rest ih =>
      intro st
      simp only [processItemsP, processItems, processLabelP_eq, ih]
      rfl

theorem processTransactionP_eq (st : IndexState) (rt : List Label) :
    processTransactionP st rt = some (processTransaction st rt) := by
  simp only [processTransactionP, processTransaction, processItemsP_eq]
  rfl

theorem indexRunP_eq (raw : List (List Label)) : ∀ st : IndexState,
    indexRunP st raw = some (indexRun st raw) := by
  induction raw with
  | nil => intro st; rfl
  | cons rt rest ih =>
      intro st
      simp only [indexRunP, indexRun, processTransactionP_eq, ih]
      rfl

theorem gficP_eq (raw : List (List Label)) (ms : ℚ) :
    generate_frequent_item_countsP raw ms =
      some (generate_frequent_item_counts raw ms) := by
  simp only [generate_frequent_item_countsP,
    generate_frequent_item_counts, indexRunP_eq]
  rfl

theorem levelLoopP_eq (msc : Nat) :
    ∀ (fuel size : Nat) (txs : List Transaction)
      (levels : FrequentItemsets),
    (size - 1) ∈ levels.map Prod.fst →
    levelLoopP msc fuel size txs levels =
      some (levelLoop msc fuel size txs levels) := by
  intro fuel
  induction fuel with
  | zero => intro size txs levels _; rfl
  | succ fuel ih =>
      intro size txs levels hmem
      obtain ⟨prev, hprev⟩ := lookA_isSome_of_mem_keys hmem
      simp only [levelLoopP, levelLoop, hprev, Option.getD_some]
      apply ih
      rw [List.map_append]
      simp

/-- C9: the run never reaches a panicking partial operation: the
panic-aware pipeline (where the guarded `unwrap` during indexing and
the map index `all_frequent_itemsets[&(size - 1)]` return `none` on
failure) always returns `some` of the total model's result. -/
theorem claim_C9_no_panics (raw : List (List Label)) (ms : ℚ)
    (k : Nat) :
    generate_frequent_itemsetsP raw ms k =
      some (generate_frequent_itemsets raw ms k) := by
  unfold generate_frequent_itemsetsP
  rw [gficP_eq]
  by_cases hk : k = 1
  · subst hk
    rw [gfi_eq_k1]
    simp
  · have hkey : (3 - 1 : Nat) ∈
        ([(1, convert_to_itemset_counts
            (generate_frequent_item_counts raw ms).1),
          (2, yo ((generate_frequent_item_counts raw ms).1.map Prod.fst)
            ((generate_frequent_item_counts raw ms).2.2.filter
              (fun t => 2 ≤ t.length))
            (minSupportCountUsize ms raw.length))].map Prod.fst) := by
      simp
    rw [gfi_eq_else raw ms k hk]
    show (if k = 1 then _ else _) = _
    rw [if_neg hk]
    rw [levelLoopP_eq _ _ _ _ _ hkey]
    rfl

/-- Witness for C10 at a concrete input with min-support 0: the pair
`{0, 1}` occurs in no transaction, yet appears at level 2 with support
count 0. -/
theorem claim_C10_witness :
    (minSupportCountUsize 0 2 = 0 ∧ (2 : Nat) ≠ 1 ∧
     0 ∈ (generate_frequent_item_counts [["A"], ["B"]] 0).1.map
       Prod.fst ∧
     1 ∈ (generate_frequent_item_counts [["A"], ["B"]] 0).1.map
       Prod.fst ∧ (0 : Nat) ≠ 1) ∧
    (∃ lvl2, lookA 2 (resultLevels [["A"], ["B"]] 0 2) = some lvl2 ∧
      (List.insertionSort (· ≤ ·) [0, 1],
        supportCount (normTxs [["A"], ["B"]] 0) [0, 1]) ∈ lvl2) := by
  have h32 : minSupportCountU32 0 2 = 0 :=
    msc32_eval 0 2 0 (by norm_num) (by norm_num)
  have h64 : minSupportCountUsize 0 2 = 0 :=
    msc64_eval 0 2 0 (by norm_num) (by norm_num)
  have hev : (generate_frequent_item_counts [["A"], ["B"]] 0).1.map
      Prod.fst = [0, 1] := by
    simp only [generate_frequent_item_counts, List.length_cons,
      List.length_nil, h32]
    decide
  have hm0 : 0 ∈ (generate_frequent_item_counts [["A"], ["B"]] 0).1.map
      Prod.fst := by
    rw [hev]
    decide
  have hm1 : 1 ∈ (generate_frequent_item_counts [["A"], ["B"]] 0).1.map
      Prod.fst := by
    rw [hev]
    decide
  exact ⟨⟨h64, by decide, hm0, hm1, by decide⟩,
    claim_C10_zero_support_pairs [["A"], ["B"]] 0 2 h64 (by decide)
      0 1 hm0 hm1 (by decide)⟩

/-! ### Machinery for the C2 counterexample -/

theorem indexRun_append (xs ys : List (List Label)) :
    ∀ st : IndexState,
    indexRun st (xs ++ ys) =
      ((indexRun (indexRun st xs).1 ys).1,
       (indexRun st xs).2 ++ (indexRun (indexRun st xs).1 ys).2) := by
  induction xs with
  | nil => intro st; rfl
  | cons rt rest ih =>
      intro st
      have hunfold : indexRun st ((rt :: rest) ++ ys) =
          ((indexRun (processTransaction st rt).1 (rest ++ ys)).1,
           (processTransaction st rt).2 ::
             (indexRun (processTransaction st rt).1 (rest ++ ys)).2) :=
        rfl
      rw [hunfold, ih]
      rfl

theorem mem_filter_of_mem_of_true {α : Type} {l : List α}
    {p : α → Bool} {x : α} (h : x ∈ l) (hp : p x = true) :
    x ∈ l.filter p :=
  List.mem_filter.mpr ⟨h, hp⟩

theorem indexRun_single_empty (st : IndexState) :
    indexRun st [[]] = (st, [([] : List Nat)]) := rfl

theorem indexRun_replicate_closed (m : Nat) : ∀ c : Nat,
    indexRun (⟨[("A", 0)], [(0, "A")], 1, [(0, c)]⟩ : IndexState)
      (List.replicate m ["A"]) =
    (⟨[("A", 0)], [(0, "A")], 1, [(0, c + m)]⟩, List.replicate m [0]) := by
  induction m with
  | zero => intro c; rfl
  | succ m ih =>
      intro c
      have hpt : processTransaction
          (⟨[("A", 0)], [(0, "A")], 1, [(0, c)]⟩ : IndexState) ["A"] =
          (⟨[("A", 0)], [(0, "A")], 1, [(0, c + 1)]⟩, [0]) := rfl
      have hstep : indexRun
          (⟨[("A", 0)], [(0, "A")], 1, [(0, c)]⟩ : IndexState)
          (List.replicate (m + 1) ["A"]) =
          ((indexRun (⟨[("A", 0)], [(0, "A")], 1,
              [(0, c + 1)]⟩ : IndexState) (List.replicate m ["A"])).1,
           [0] :: (indexRun (⟨[("A", 0)], [(0, "A")], 1,
              [(0, c + 1)]⟩ : IndexState) (List.replicate m ["A"])).2) := by
        rw [List.replicate_succ]
        have h0 : indexRun
            (⟨[("A", 0)], [(0, "A")], 1, [(0, c)]⟩ : IndexState)
            (["A"] :: List.replicate m ["A"]) =
            ((indexRun (processTransaction
                (⟨[("A", 0)], [(0, "A")], 1, [(0, c)]⟩ : IndexState)
                ["A"]).1 (List.replicate m ["A"])).1,
             (processTransaction
                (⟨[("A", 0)], [(0, "A")], 1, [(0, c)]⟩ : IndexState)
                ["A"]).2 ::
               (indexRun (processTransaction
                 (⟨[("A", 0)], [(0, "A")], 1, [(0, c)]⟩ : IndexState)
                 ["A"]).1 (List.replicate m ["A"])).2) := rfl
        rw [h0, hpt]
      rw [hstep, ih (c + 1)]
      have harith : c + 1 + m = c + (m + 1) := by omega
      rw [harith, List.replicate_succ]

/-- C2 counterexample: on an input of `2^32` transactions (values at
which `f32` arithmetic is exact) of which `2^32 - 1` contain the single
label `A` and one is empty, with min-support fraction 1 and
`max_level = 1`, the singleton itemset of `A` appears at level 1 with
true support `2^32 - 1`, strictly below
`ceil(min_support_fraction × N) = 2^32`: the `u32` cast of the level-1
threshold saturates at `2^32 - 1`, so an itemset below the ideal
threshold is retained. -/
theorem claim_C2_counterexample :
    ¬ (∀ size lvl, lookA size (resultLevels
        (["A"] :: (List.replicate (2 ^ 32 - 2) ["A"] ++ [[]])) 1 1) =
          some lvl →
       ∀ q ∈ lvl, idealMinSupportCount 1
         (["A"] :: (List.replicate (2 ^ 32 - 2) ["A"] ++ [[]])).length ≤
         supportCount (normTxs
           (["A"] :: (List.replicate (2 ^ 32 - 2) ["A"] ++ [[]])) 1)
           q.1) := by
  intro hclaim
  have hpt1 : processTransaction initState ["A"] =
      (⟨[("A", 0)], [(0, "A")], 1, [(0, 1)]⟩, [0]) := rfl
  have hrun1 : indexRun initState
      (["A"] :: (List.replicate (2 ^ 32 - 2) ["A"] ++ [[]])) =
      ((indexRun (⟨[("A", 0)], [(0, "A")], 1, [(0, 1)]⟩ : IndexState)
          (List.replicate (2 ^ 32 - 2) ["A"] ++ [[]])).1,
       [0] :: (indexRun
          (⟨[("A", 0)], [(0, "A")], 1, [(0, 1)]⟩ : IndexState)
          (List.replicate (2 ^ 32 - 2) ["A"] ++ [[]])).2) := by
    have hstep : indexRun initState
        (["A"] :: (List.replicate (2 ^ 32 - 2) ["A"] ++ [[]])) =
        ((indexRun (processTransaction initState ["A"]).1
            (List.replicate (2 ^ 32 - 2) ["A"] ++ [[]])).1,
         (processTransaction initState ["A"]).2 ::
           (indexRun (processTransaction initState ["A"]).1
             (List.replicate (2 ^ 32 - 2) ["A"] ++ [[]])).2) := rfl
    rw [hstep, hpt1]
  have happ := indexRun_append (List.replicate (2 ^ 32 - 2) ["A"]) [[]]
    (⟨[("A", 0)], [(0, "A")], 1, [(0, 1)]⟩ : IndexState)
  rw [indexRun_replicate_closed (2 ^ 32 - 2) 1,
    indexRun_single_empty] at happ
  have hfinal : indexRun initState
      (["A"] :: (List.replicate (2 ^ 32 - 2) ["A"] ++ [[]])) =
      ((⟨[("A", 0)], [(0, "A")], 1,
          [(0, 1 + (2 ^ 32 - 2))]⟩ : IndexState),
       [0] :: (List.replicate (2 ^ 32 - 2) [0] ++ [([] : List Nat)])) := by
    rw [hrun1, happ]
  have hlen : (["A"] :: (List.replicate (2 ^ 32 - 2) ["A"] ++
      [[]])).length = 2 ^ 32 := by
    rw [List.length_cons, List.length_append, List.length_replicate,
      List.length_singleton]
    norm_num
  have hceil : (⌈(1 : ℚ) * ((2 ^ 32 : Nat) : ℚ)⌉ : ℤ) = 2 ^ 32 := by
    push_cast
    norm_num
  have hmsc32 : minSupportCountU32 1 (["A"] ::
      (List.replicate (2 ^ 32 - 2) ["A"] ++ [[]])).length =
      2 ^ 32 - 1 := by
    rw [hlen]
    unfold minSupportCountU32 rustCastU32
    rw [hceil]
    have htn : ((2 ^ 32 : ℤ)).toNat = 2 ^ 32 := rfl
    rw [htn]
    norm_num
  have hideal : idealMinSupportCount 1 (["A"] ::
      (List.replicate (2 ^ 32 - 2) ["A"] ++ [[]])).length = 2 ^ 32 := by
    rw [hlen]
    unfold idealMinSupportCount
    rw [hceil]
    rfl
  have hgfic : generate_frequent_item_counts
      (["A"] :: (List.replicate (2 ^ 32 - 2) ["A"] ++ [[]])) 1 =
      ([(0, 1 + (2 ^ 32 - 2))], [(0, "A")],
       [0] :: (List.replicate (2 ^ 32 - 2) [0] ++ [([] : List Nat)])) := by
    rw [gfic_eq_indexRun, hfinal]
    simp only
    rw [hmsc32]
    have hfilter : List.filter
        (fun q => decide ((2 ^ 32 - 1 : Nat) ≤ q.2))
        [((0 : Nat), 1 + (2 ^ 32 - 2))] =
        [((0 : Nat), 1 + (2 ^ 32 - 2))] := by
      rw [List.filter_cons]
      have h : ((2 ^ 32 - 1 : Nat) ≤ 1 + (2 ^ 32 - 2)) := by norm_num
      simp [h]
    rw [hfilter]
  have hres1 : resultLevels
      (["A"] :: (List.replicate (2 ^ 32 - 2) ["A"] ++ [[]])) 1 1 =
      [(1, [([0], 1 + (2 ^ 32 - 2))])] := by
    unfold resultLevels
    rw [gfi_eq_k1, hgfic]
    rfl
  have hlook : lookA 1 (resultLevels
      (["A"] :: (List.replicate (2 ^ 32 - 2) ["A"] ++ [[]])) 1 1) =
      some [([0], 1 + (2 ^ 32 - 2))] := by
    rw [hres1, lookA_cons, if_pos rfl]
  have hsupp : supportCount (normTxs
      (["A"] :: (List.replicate (2 ^ 32 - 2) ["A"] ++ [[]])) 1) [0] =
      2 ^ 32 - 1 := by
    have htxs : normTxs
        (["A"] :: (List.replicate (2 ^ 32 - 2) ["A"] ++ [[]])) 1 =
        [0] :: (List.replicate (2 ^ 32 - 2) [0] ++
          [([] : List Nat)]) := by
      unfold normTxs
      rw [hgfic]
    rw [htxs]
    unfold supportCount
    simp only [containsAll_singleton]
    have hrep : List.filter (fun t => decide ((0 : Nat) ∈ t))
        (List.replicate (2 ^ 32 - 2) [0]) =
        List.replicate (2 ^ 32 - 2) [0] :=
      List.filter_replicate_of_pos (by decide)
    rw [List.filter_cons,
      if_pos (by decide : decide ((0 : Nat) ∈ [0]) = true),
      List.filter_append, hrep]
    have hsmall : List.filter (fun t => decide ((0 : Nat) ∈ t))
        [([] : List Nat)] = [] := rfl
    rw [hsmall, List.length_cons, List.length_append,
      List.length_replicate, List.length_nil]
    norm_num
  have hconsq := hclaim 1 [([0], 1 + (2 ^ 32 - 2))] hlook
    ([0], 1 + (2 ^ 32 - 2)) (List.mem_singleton.mpr rfl)
  rw [hideal] at hconsq
  have hproj : ((([0], 1 + (2 ^ 32 - 2))) : Itemset × Nat).1 = [0] :=
    rfl
  rw [hproj, hsupp] at hconsq
  exact absurd hconsq (by norm_num)

/-- C2 amended: on the domain where the source's `f32` and `u32`
arithmetic is exact — `min_support` a representable `f32` value in
`[0, 1]`, at most `2^24` transactions (so `N as f32` is exact, no
`u32` counter can wrap and no threshold cast can saturate, which the
counterexample shows is otherwise violated), and the product
`min_support × N` exactly representable in `f32` — the wrapping model
satisfies: no itemset whose true support count is below
`ceil(min_support × N)` appears in any per-level result, and every
itemset meeting that threshold that is reachable through the
candidate-generation closure — retained frequent singles, their
2-combinations, and join-generated `n`-itemsets from a computed level
`n - 1` with `n ≤ k` — appears in the level matching its size. -/
theorem claim_C2_amended (raw : List (List Label)) (ms : ℚ) (k : Nat)
    (hnd : ∀ rt ∈ raw, rt.Nodup) (h0 : 0 ≤ ms) (h1 : ms ≤ 1)
    (hms : repF32 ms) (hN : raw.length ≤ 2 ^ 24)
    (hprod : repF32 (ms * raw.length)) :
    (∀ size lvl, lookA size (resultLevelsW raw ms k) = some lvl →
      ∀ q ∈ lvl, idealMinSupportCount ms raw.length ≤
        supportCount (normTxsW raw ms) q.1) ∧
    (∀ t ∈ normTxsW raw ms, ∀ i ∈ t,
      idealMinSupportCount ms raw.length ≤
        supportCount (normTxsW raw ms) [i] →
      ∃ lvl1, lookA 1 (resultLevelsW raw ms k) = some lvl1 ∧
        ([i], supportCount (normTxsW raw ms) [i]) ∈ lvl1) ∧
    (k ≠ 1 → ∀ a b,
      a ∈ (generate_frequent_item_countsW raw ms).1.map Prod.fst →
      b ∈ (generate_frequent_item_countsW raw ms).1.map Prod.fst →
      a ≠ b →
      idealMinSupportCount ms raw.length ≤
        supportCount (normTxsW raw ms) [a, b] →
      ∃ lvl2, lookA 2 (resultLevelsW raw ms k) = some lvl2 ∧
        (List.insertionSort (· ≤ ·) [a, b],
          supportCount (normTxsW raw ms) [a, b]) ∈ lvl2) ∧
    (∀ n, 3 ≤ n → n ≤ k → ∀ lvlPrev,
      lookA (n - 1) (resultLevelsW raw ms k) = some lvlPrev →
      ∀ c ∈ join_step (lvlPrev.map Prod.fst),
        idealMinSupportCount ms raw.length ≤
          supportCount (normTxsW raw ms) c →
        ∃ lvl, lookA n (resultLevelsW raw ms k) = some lvl ∧
          (c, supportCount (normTxsW raw ms) c) ∈ lvl) := by
  have hN32 : raw.length < 2 ^ 32 :=
    lt_of_le_of_lt hN (by norm_num)
  rw [resultLevelsW_eq raw ms k hnd hN32, normTxsW_eq raw ms,
    gficW_eq raw ms hnd hN32]
  obtain ⟨h32, h64⟩ := thresholds_agree h1 hN32
  have hconvA : ∀ q ∈ convert_to_itemset_counts
      (generate_frequent_item_counts raw ms).1,
      idealMinSupportCount ms raw.length ≤
        supportCount (normTxs raw ms) q.1 := by
    intro q hq
    obtain ⟨r, hr, rfl⟩ := List.mem_map.mp hq
    obtain ⟨_, hthr⟩ := gfic_counts_mem raw ms hr
    have hsup := gfic_support_eq raw ms hnd hr
    rw [← h32]
    unfold normTxs
    rw [← hsup]
    exact hthr
  have hreskOne : ∀ h : k = 1, resultLevels raw ms k =
      [(1, convert_to_itemset_counts
        (generate_frequent_item_counts raw ms).1)] := by
    intro h
    subst h
    unfold resultLevels
    rw [gfi_eq_k1]
  have hl1 : lookA 1 (resultLevels raw ms k) =
      some (convert_to_itemset_counts
        (generate_frequent_item_counts raw ms).1) := by
    by_cases hk : k = 1
    · rw [hreskOne hk, lookA_cons, if_pos rfl]
    · exact (gfi_master raw ms k hnd hk).2.1
  refine ⟨?_, ?_, ?_, ?_⟩
  · -- threshold soundness
    by_cases hk : k = 1
    · intro size lvl hl q hq
      rw [hreskOne hk] at hl
      by_cases hs : (1 : Nat) = size
      · rw [lookA_cons, if_pos hs] at hl
        simp only [Option.some.injEq] at hl
        subst hl
        exact hconvA q hq
      · rw [lookA_cons, if_neg hs] at hl
        simp at hl
    · obtain ⟨ck, c1, _, cgood, cthr, _, _⟩ :=
        gfi_master raw ms k hnd hk
      intro size lvl hl q hq
      have hpmem : (size, lvl) ∈ resultLevels raw ms k :=
        mem_of_lookA_eq_some hl
      by_cases h2 : 2 ≤ size
      · have hthr := cthr (size, lvl) hpmem h2 q hq
        have hq2 := (cgood (size, lvl) hpmem q hq).2.2.2
        rw [← h64]
        rw [← hq2]
        exact hthr
      · have hs1 : size = 1 := by
          have := keys_mem_of_mem hpmem
          rw [ck, mem_range1] at this
          omega
        subst hs1
        rw [hl] at c1
        simp only [Option.some.injEq] at c1
        rw [c1] at hq
        exact hconvA q hq
  · -- completeness: frequent singles
    intro t ht i hi hms
    have hms32 : minSupportCountU32 ms raw.length ≤
        supportCount (normTxs raw ms) [i] := by
      rw [h32]
      exact hms
    have hmem := gfic_complete_single raw ms hnd ht hi hms32
    exact ⟨_, hl1, List.mem_map.mpr ⟨_, hmem, rfl⟩⟩
  · -- completeness: 2-combinations of retained singles
    intro hk2 a b ha hb hab hms
    obtain ⟨_, _, c2, _, _, _, _⟩ := gfi_master raw ms k hnd hk2
    refine ⟨_, c2, ?_⟩
    have hnd2 : ([a, b] : List Nat).Nodup := by simp [hab]
    have hflt : supportCount
        ((generate_frequent_item_counts raw ms).2.2.filter
          (fun t => 2 ≤ t.length)) [a, b] =
        supportCount (normTxs raw ms) [a, b] :=
      supportCount_filter_length hnd2 (by simp)
    rcases combinations2_complete ha hb hab with hc | hc
    · have hth : minSupportCountUsize ms raw.length ≤
          supportCount ((generate_frequent_item_counts raw ms).2.2.filter
            (fun t => 2 ≤ t.length)) [a, b] := by
        rw [hflt, h64]
        exact hms
      have := yo_complete hc hth
      rw [hflt] at this
      exact this
    · have hsame : supportCount
          ((generate_frequent_item_counts raw ms).2.2.filter
            (fun t => 2 ≤ t.length)) [b, a] =
          supportCount ((generate_frequent_item_counts raw ms).2.2.filter
            (fun t => 2 ≤ t.length)) [a, b] := by
        apply supportCount_eq_of_mem_iff
        intro i
        constructor <;> intro h <;> simpa [or_comm] using h
      have hth : minSupportCountUsize ms raw.length ≤
          supportCount ((generate_frequent_item_counts raw ms).2.2.filter
            (fun t => 2 ≤ t.length)) [b, a] := by
        rw [hsame, hflt, h64]
        exact hms
      have := yo_complete hc hth
      rw [insertionSort_pair_comm, hsame, hflt] at this
      exact this
  · -- completeness: join-generated candidates
    intro n h3 hnk lvlPrev hlp c hc hms
    have hk2 : k ≠ 1 := by omega
    obtain ⟨ck, _, _, _, _, _, ccompl⟩ := gfi_master raw ms k hnd hk2
    have hkey : n ∈ (resultLevels raw ms k).map Prod.fst := by
      rw [ck, mem_range1]
      omega
    obtain ⟨lvl, hl⟩ := lookA_isSome_of_mem_keys hkey
    have hms64 : minSupportCountUsize ms raw.length ≤
        supportCount (normTxs raw ms) c := by
      rw [h64]
      exact hms
    exact ⟨lvl, hl, ccompl n h3 (by omega) lvlPrev lvl hlp hl c hc
      hms64⟩

/-- Witness for C2's amended form at a concrete input. -/
theorem claim_C2_witness :
    ((∀ rt ∈ [["A"]], rt.Nodup) ∧ (0 : ℚ) ≤ 1 ∧ (1 : ℚ) ≤ 1 ∧
      repF32 1 ∧ ([["A"]] : List (List Label)).length ≤ 2 ^ 24 ∧
      repF32 (1 * (([["A"]] : List (List Label)).length : ℚ))) ∧
    ((∀ size lvl, lookA size (resultLevelsW [["A"]] 1 1) = some lvl →
      ∀ q ∈ lvl, idealMinSupportCount 1 ([["A"]] :
          List (List Label)).length ≤
        supportCount (normTxsW [["A"]] 1) q.1) ∧
     (∀ t ∈ normTxsW [["A"]] 1, ∀ i ∈ t,
      idealMinSupportCount 1 ([["A"]] : List (List Label)).length ≤
        supportCount (normTxsW [["A"]] 1) [i] →
      ∃ lvl1, lookA 1 (resultLevelsW [["A"]] 1 1) = some lvl1 ∧
        ([i], supportCount (normTxsW [["A"]] 1) [i]) ∈ lvl1) ∧
     ((1 : Nat) ≠ 1 → ∀ a b,
      a ∈ (generate_frequent_item_countsW [["A"]] 1).1.map Prod.fst →
      b ∈ (generate_frequent_item_countsW [["A"]] 1).1.map Prod.fst →
      a ≠ b →
      idealMinSupportCount 1 ([["A"]] : List (List Label)).length ≤
        supportCount (normTxsW [["A"]] 1) [a, b] →
      ∃ lvl2, lookA 2 (resultLevelsW [["A"]] 1 1) = some lvl2 ∧
        (List.insertionSort (· ≤ ·) [a, b],
          supportCount (normTxsW [["A"]] 1) [a, b]) ∈ lvl2) ∧
     (∀ n, 3 ≤ n → n ≤ 1 → ∀ lvlPrev,
      lookA (n - 1) (resultLevelsW [["A"]] 1 1) = some lvlPrev →
      ∀ c ∈ join_step (lvlPrev.map Prod.fst),
        idealMinSupportCount 1 ([["A"]] : List (List Label)).length ≤
          supportCount (normTxsW [["A"]] 1) c →
        ∃ lvl, lookA n (resultLevelsW [["A"]] 1 1) = some lvl ∧
          (c, supportCount (normTxsW [["A"]] 1) c) ∈ lvl)) :=
  ⟨⟨by decide, by norm_num, by norm_num,
    ⟨1, 0, by norm_num, by norm_num, by norm_num, by norm_num⟩,
    by norm_num,
    ⟨1, 0, by norm_num, by norm_num, by norm_num, by norm_num⟩⟩,
   claim_C2_amended [["A"]] 1 1 (by decide) (by norm_num) (by norm_num)
     ⟨1, 0, by norm_num, by norm_num, by norm_num, by norm_num⟩
     (by norm_num)
     ⟨1, 0, by norm_num, by norm_num, by norm_num, by norm_num⟩⟩

/-- C1 counterexample: on `2^32` copies of the transaction `{A}` (one
explicit plus `2^32 - 1` replicated) with min-support 0 (at which the
threshold computation is `f32`-exact) and `max_level = 1`, the `u32`
counter wraps: level 1 holds the itemset `[A]` paired with stored
count `0`, while `2^32` original transactions contain `A`. -/
theorem claim_C1_counterexample :
    ¬ (∀ size lvl, lookA size
        (resultLevelsW (["A"] :: List.replicate (2 ^ 32 - 1) ["A"]) 0 1) =
          some lvl →
       ∀ q ∈ lvl, q.2 = supportCount
         (normTxsW (["A"] :: List.replicate (2 ^ 32 - 1) ["A"]) 0)
         q.1) := by
  intro hclaim
  have hpt1 : processTransactionW initState ["A"] =
      (⟨[("A", 0)], [(0, "A")], 1, [(0, 1)]⟩, [0]) := rfl
  have hrun1 : indexRunW initState
      (["A"] :: List.replicate (2 ^ 32 - 1) ["A"]) =
      ((indexRunW (⟨[("A", 0)], [(0, "A")], 1, [(0, 1)]⟩ : IndexState)
          (List.replicate (2 ^ 32 - 1) ["A"])).1,
       [0] :: (indexRunW
          (⟨[("A", 0)], [(0, "A")], 1, [(0, 1)]⟩ : IndexState)
          (List.replicate (2 ^ 32 - 1) ["A"])).2) := by
    have hstep : indexRunW initState
        (["A"] :: List.replicate (2 ^ 32 - 1) ["A"]) =
        ((indexRunW (processTransactionW initState ["A"]).1
            (List.replicate (2 ^ 32 - 1) ["A"])).1,
         (processTransactionW initState ["A"]).2 ::
           (indexRunW (processTransactionW initState ["A"]).1
             (List.replicate (2 ^ 32 - 1) ["A"])).2) := rfl
    rw [hstep, hpt1]
  have hclosed := indexRunW_replicate_closed (2 ^ 32 - 1) 1 (by norm_num)
  have harith : (1 + (2 ^ 32 - 1)) % 2 ^ 32 = 0 := by norm_num
  rw [harith] at hclosed
  have hfinal : indexRunW initState
      (["A"] :: List.replicate (2 ^ 32 - 1) ["A"]) =
      ((⟨[("A", 0)], [(0, "A")], 1, [(0, 0)]⟩ : IndexState),
       [0] :: List.replicate (2 ^ 32 - 1) [0]) := by
    rw [hrun1, hclosed]
  have hlen : (["A"] :: List.replicate (2 ^ 32 - 1) ["A"]).length =
      2 ^ 32 := by
    rw [List.length_cons, List.length_replicate]
    norm_num
  have hmsc32 : minSupportCountU32 0
      (["A"] :: List.replicate (2 ^ 32 - 1) ["A"]).length = 0 := by
    rw [hlen]
    apply msc32_eval _ _ 0 _ (by norm_num)
    have hz : (0 : ℚ) * ((2 ^ 32 : Nat) : ℚ) = 0 := by ring
    rw [hz]
    simp
  have hgficW : generate_frequent_item_countsW
      (["A"] :: List.replicate (2 ^ 32 - 1) ["A"]) 0 =
      ([(0, 0)], [(0, "A")], [0] :: List.replicate (2 ^ 32 - 1) [0]) := by
    rw [gficW_eq_indexRunW, hfinal]
    simp only
    rw [hmsc32]
    rfl
  have hres1 : resultLevelsW
      (["A"] :: List.replicate (2 ^ 32 - 1) ["A"]) 0 1 =
      [(1, [([0], 0)])] := by
    unfold resultLevelsW
    rw [gfiW_eq_k1, hgficW]
    rfl
  have hlook : lookA 1 (resultLevelsW
      (["A"] :: List.replicate (2 ^ 32 - 1) ["A"]) 0 1) =
      some [([0], 0)] := by
    rw [hres1, lookA_cons, if_pos rfl]
  have htxs : normTxsW (["A"] :: List.replicate (2 ^ 32 - 1) ["A"]) 0 =
      [0] :: List.replicate (2 ^ 32 - 1) [0] := by
    unfold normTxsW
    rw [hgficW]
  have hsupp : supportCount
      (normTxsW (["A"] :: List.replicate (2 ^ 32 - 1) ["A"]) 0) [0] =
      2 ^ 32 := by
    rw [htxs]
    unfold supportCount
    simp only [containsAll_singleton]
    have hrep : List.filter (fun t => decide ((0 : Nat) ∈ t))
        (List.replicate (2 ^ 32 - 1) [0]) =
        List.replicate (2 ^ 32 - 1) [0] :=
      List.filter_replicate_of_pos (by decide)
    rw [List.filter_cons,
      if_pos (by decide : decide ((0 : Nat) ∈ [0]) = true), hrep,
      List.length_cons, List.length_replicate]
    norm_num
  have hconsq := hclaim 1 [([0], 0)] hlook ([0], 0)
    (List.mem_singleton.mpr rfl)
  have hproj1 : ((([0], 0)) : Itemset × Nat).1 = [0] := rfl
  have hproj2 : ((([0], 0)) : Itemset × Nat).2 = 0 := rfl
  rw [hproj1, hproj2, hsupp] at hconsq
  exact absurd hconsq (by norm_num)

/-- C1 amended: with fewer than `2^32` transactions (a support count
never exceeds the number of transactions, so the `u32` counter cannot
wrap and the truncating cast is the identity, which the counterexample
shows is otherwise violated), every itemset appearing in any per-level
result of the wrapping model is paired with a count equal to the exact
number of transactions containing all of its items (the length-based
transaction filtering applied before each level does not alter any
returned count). -/
theorem claim_C1_amended (raw : List (List Label)) (ms : ℚ) (k : Nat)
    (hnd : ∀ rt ∈ raw, rt.Nodup) (hN : raw.length < 2 ^ 32) :
    ∀ size lvl, lookA size (resultLevelsW raw ms k) = some lvl →
    ∀ q ∈ lvl, q.2 = supportCount (normTxsW raw ms) q.1 := by
  rw [resultLevelsW_eq raw ms k hnd hN, normTxsW_eq raw ms]
  exact counts_exact_ideal raw ms k hnd

/-- Witness for C1's amended form at a concrete input. -/
theorem claim_C1_amended_witness :
    ((∀ rt ∈ [["A"], ["A", "B"]], rt.Nodup) ∧
      ([["A"], ["A", "B"]] : List (List Label)).length < 2 ^ 32) ∧
    (∀ size lvl,
      lookA size (resultLevelsW [["A"], ["A", "B"]] (1/2) 2) =
        some lvl →
      ∀ q ∈ lvl, q.2 =
        supportCount (normTxsW [["A"], ["A", "B"]] (1/2)) q.1) :=
  ⟨⟨by decide, by norm_num⟩,
   claim_C1_amended [["A"], ["A", "B"]] (1/2) 2 (by decide)
     (by norm_num)⟩

set_option maxRecDepth 8000 in
/-- C3 counterexample: on 150 transactions `{A, B}` followed by
`2^32 - 100` transactions `{A}`, with min-support 0 (at which the
threshold computation is `f32`-exact) and `max_level = 2`, the `u32`
counter for `A` wraps to `50` at level 1 while level 2 holds
`{A, B} ↦ 150`: the 1-element subset `[A]` of the level-2 itemset is
present at level 1 only with count `50 < 150`, violating
anti-monotonicity of the reported counts. -/
theorem claim_C3_counterexample :
    ¬ (∀ n lvl, 2 ≤ n →
       lookA n (resultLevelsW
         (["A", "B"] :: (List.replicate 149 ["A", "B"] ++
           List.replicate (2 ^ 32 - 100) ["A"])) 0 2) = some lvl →
       ∀ q ∈ lvl, ∃ lvlPrev,
         lookA (n - 1) (resultLevelsW
           (["A", "B"] :: (List.replicate 149 ["A", "B"] ++
             List.replicate (2 ^ 32 - 100) ["A"])) 0 2) =
           some lvlPrev ∧
         ∀ s, List.Sublist s q.1 → s.length + 1 = q.1.length →
           ∃ cnt', (s, cnt') ∈ lvlPrev ∧ q.2 ≤ cnt') := by
  intro hclaim
  have hpt0 : processTransactionW initState ["A", "B"] =
      (⟨[("B", 1), ("A", 0)], [(1, "B"), (0, "A")], 2,
        [(0, 1), (1, 1)]⟩, [0, 1]) := rfl
  have hrun1 : indexRunW initState
      (["A", "B"] :: (List.replicate 149 ["A", "B"] ++
        List.replicate (2 ^ 32 - 100) ["A"])) =
      ((indexRunW (⟨[("B", 1), ("A", 0)], [(1, "B"), (0, "A")], 2,
          [(0, 1), (1, 1)]⟩ : IndexState)
          (List.replicate 149 ["A", "B"] ++
            List.replicate (2 ^ 32 - 100) ["A"])).1,
       [0, 1] :: (indexRunW (⟨[("B", 1), ("A", 0)], [(1, "B"), (0, "A")],
          2, [(0, 1), (1, 1)]⟩ : IndexState)
          (List.replicate 149 ["A", "B"] ++
            List.replicate (2 ^ 32 - 100) ["A"])).2) := by
    have hstep : indexRunW initState
        (["A", "B"] :: (List.replicate 149 ["A", "B"] ++
          List.replicate (2 ^ 32 - 100) ["A"])) =
        ((indexRunW (processTransactionW initState ["A", "B"]).1
            (List.replicate 149 ["A", "B"] ++
              List.replicate (2 ^ 32 - 100) ["A"])).1,
         (processTransactionW initState ["A", "B"]).2 ::
           (indexRunW (processTransactionW initState ["A", "B"]).1
             (List.replicate 149 ["A", "B"] ++
               List.replicate (2 ^ 32 - 100) ["A"])).2) := rfl
    rw [hstep, hpt0]
  have h150 : (1 + 149) % 2 ^ 32 = 150 := by norm_num
  have hxs : indexRunW (⟨[("B", 1), ("A", 0)], [(1, "B"), (0, "A")], 2,
      [(0, 1), (1, 1)]⟩ : IndexState) (List.replicate 149 ["A", "B"]) =
      (⟨[("B", 1), ("A", 0)], [(1, "B"), (0, "A")], 2,
        [(0, 150), (1, 150)]⟩, List.replicate 149 [0, 1]) := by
    have hcl := indexRunW_replicateAB_closed 149 1 1 (by norm_num)
      (by norm_num)
    rw [h150] at hcl
    exact hcl
  have h50 : (150 + (2 ^ 32 - 100)) % 2 ^ 32 = 50 := by norm_num
  have hys : indexRunW (⟨[("B", 1), ("A", 0)], [(1, "B"), (0, "A")], 2,
      [(0, 150), (1, 150)]⟩ : IndexState)
      (List.replicate (2 ^ 32 - 100) ["A"]) =
      (⟨[("B", 1), ("A", 0)], [(1, "B"), (0, "A")], 2,
        [(0, 50), (1, 150)]⟩, List.replicate (2 ^ 32 - 100) [0]) := by
    have hcl := indexRunW_replicateA_from2_closed (2 ^ 32 - 100) 150 150
      (by norm_num)
    rw [h50] at hcl
    exact hcl
  have hprojxs : ((⟨[("B", 1), ("A", 0)], [(1, "B"), (0, "A")], 2,
      [(0, 150), (1, 150)]⟩, List.replicate 149 [0, 1]) :
        IndexState × List Transaction).1 =
      (⟨[("B", 1), ("A", 0)], [(1, "B"), (0, "A")], 2,
        [(0, 150), (1, 150)]⟩ : IndexState) := rfl
  have happ : indexRunW (⟨[("B", 1), ("A", 0)], [(1, "B"), (0, "A")], 2,
      [(0, 1), (1, 1)]⟩ : IndexState)
      (List.replicate 149 ["A", "B"] ++
        List.replicate (2 ^ 32 - 100) ["A"]) =
      (⟨[("B", 1), ("A", 0)], [(1, "B"), (0, "A")], 2,
        [(0, 50), (1, 150)]⟩,
       List.replicate 149 [0, 1] ++
         List.replicate (2 ^ 32 - 100) [0]) := by
    rw [indexRunW_append (List.replicate 149 ["A", "B"])
      (List.replicate (2 ^ 32 - 100) ["A"])
      (⟨[("B", 1), ("A", 0)], [(1, "B"), (0, "A")], 2,
        [(0, 1), (1, 1)]⟩ : IndexState), hxs, hprojxs, hys]
  have hfinal : indexRunW initState
      (["A", "B"] :: (List.replicate 149 ["A", "B"] ++
        List.replicate (2 ^ 32 - 100) ["A"])) =
      ((⟨[("B", 1), ("A", 0)], [(1, "B"), (0, "A")], 2,
          [(0, 50), (1, 150)]⟩ : IndexState),
       [0, 1] :: (List.replicate 149 [0, 1] ++
         List.replicate (2 ^ 32 - 100) [0])) := by
    rw [hrun1, happ]
  have hlen : (["A", "B"] :: (List.replicate 149 ["A", "B"] ++
      List.replicate (2 ^ 32 - 100) ["A"])).length = 2 ^ 32 + 50 := by
    rw [List.length_cons, List.length_append, List.length_replicate,
      List.length_replicate]
    norm_num
  have hmsc32 : minSupportCountU32 0
      (["A", "B"] :: (List.replicate 149 ["A", "B"] ++
        List.replicate (2 ^ 32 - 100) ["A"])).length = 0 := by
    rw [hlen]
    apply msc32_eval _ _ 0 _ (by norm_num)
    have hz : (0 : ℚ) * ((2 ^ 32 + 50 : Nat) : ℚ) = 0 := by ring
    rw [hz]
    simp
  have hmsc64 : minSupportCountUsize 0
      (["A", "B"] :: (List.replicate 149 ["A", "B"] ++
        List.replicate (2 ^ 32 - 100) ["A"])).length = 0 := by
    rw [hlen]
    apply msc64_eval _ _ 0 _ (by norm_num)
    have hz : (0 : ℚ) * ((2 ^ 32 + 50 : Nat) : ℚ) = 0 := by ring
    rw [hz]
    simp
  have hgficW : generate_frequent_item_countsW
      (["A", "B"] :: (List.replicate 149 ["A", "B"] ++
        List.replicate (2 ^ 32 - 100) ["A"])) 0 =
      ([(0, 50), (1, 150)], [(1, "B"), (0, "A")],
       [0, 1] :: (List.replicate 149 [0, 1] ++
         List.replicate (2 ^ 32 - 100) [0])) := by
    rw [gficW_eq_indexRunW, hfinal]
    simp only
    rw [hmsc32]
    rfl
  have htxs2 : List.filter (fun t => decide (2 ≤ t.length))
      ([0, 1] :: (List.replicate 149 [0, 1] ++
        List.replicate (2 ^ 32 - 100) [0])) =
      [0, 1] :: List.replicate 149 [0, 1] := by
    have hr1 : List.filter (fun t => decide (2 ≤ t.length))
        (List.replicate 149 ([0, 1] : List Nat)) =
        List.replicate 149 [0, 1] :=
      List.filter_replicate_of_pos (by decide)
    have hr2 : List.filter (fun t => decide (2 ≤ t.length))
        (List.replicate (2 ^ 32 - 100) ([0] : List Nat)) = [] :=
      List.filter_replicate_of_neg (by decide)
    rw [List.filter_cons,
      if_pos (by decide : decide (2 ≤ ([0, 1] : List Nat).length) = true),
      List.filter_append, hr1, hr2, List.append_nil]
  have hkeys : List.map Prod.fst
      ([(0, 50), (1, 150)] : ItemCounts) = [0, 1] := rfl
  have hyo : yoW [0, 1] ([0, 1] :: List.replicate 149 [0, 1]) 0 =
      [([0, 1], 150)] := by decide
  have hres : resultLevelsW
      (["A", "B"] :: (List.replicate 149 ["A", "B"] ++
        List.replicate (2 ^ 32 - 100) ["A"])) 0 2 =
      [(1, [([0], 50), ([1], 150)]), (2, [([0, 1], 150)])] := by
    unfold resultLevelsW
    rw [gfiW_eq_else _ _ _ (by norm_num), hgficW]
    simp only
    rw [hmsc64, htxs2, hkeys, hyo]
    rfl
  have h2look : lookA 2 (resultLevelsW
      (["A", "B"] :: (List.replicate 149 ["A", "B"] ++
        List.replicate (2 ^ 32 - 100) ["A"])) 0 2) =
      some [([0, 1], 150)] := by
    rw [hres, lookA_cons, if_neg (by norm_num : ¬ (1 : Nat) = 2),
      lookA_cons, if_pos rfl]
  have h1look : lookA 1 (resultLevelsW
      (["A", "B"] :: (List.replicate 149 ["A", "B"] ++
        List.replicate (2 ^ 32 - 100) ["A"])) 0 2) =
      some [([0], 50), ([1], 150)] := by
    rw [hres, lookA_cons, if_pos rfl]
  obtain ⟨lvlPrev, hlp, hanti⟩ := hclaim 2 [([0, 1], 150)]
    (by norm_num) h2look ([0, 1], 150) (List.mem_singleton.mpr rfl)
  have h21 : (2 : Nat) - 1 = 1 := rfl
  rw [h21, h1look] at hlp
  have hlv : lvlPrev = [([0], 50), ([1], 150)] := by
    simpa using hlp.symm
  subst hlv
  obtain ⟨cnt', hmem, hle⟩ := hanti [0] (by decide) (by decide)
  have hq2 : ((([0, 1], 150)) : Itemset × Nat).2 = 150 := rfl
  rw [hq2] at hle
  simp only [List.mem_cons, List.mem_singleton] at hmem
  rcases hmem with hmem | hmem
  · have hc : cnt' = 50 := by
      simpa using hmem
    rw [hc] at hle
    exact absurd hle (by norm_num)
  · simp at hmem

/-- C3 amended: with fewer than `2^32` transactions (no `u32` counter
can wrap, which the counterexample shows is otherwise violated), for
every level `n ≥ 2` present in the wrapping model's result, every
itemset of that level has each of its `(n-1)`-element subsets present
as a key of the level-`(n-1)` result with a support count at least as
large. -/
theorem claim_C3_amended (raw : List (List Label)) (ms : ℚ) (k : Nat)
    (hnd : ∀ rt ∈ raw, rt.Nodup) (hN : raw.length < 2 ^ 32) :
    ∀ n lvl, 2 ≤ n → lookA n (resultLevelsW raw ms k) = some lvl →
    ∀ q ∈ lvl, ∃ lvlPrev,
      lookA (n - 1) (resultLevelsW raw ms k) = some lvlPrev ∧
      ∀ s, List.Sublist s q.1 → s.length + 1 = q.1.length →
        ∃ cnt', (s, cnt') ∈ lvlPrev ∧ q.2 ≤ cnt' := by
  rw [resultLevelsW_eq raw ms k hnd hN]
  exact anti_mono_ideal raw ms k hnd

/-- Witness for C3's amended form at a concrete input. -/
theorem claim_C3_amended_witness :
    ((∀ rt ∈ [["A", "B"], ["A", "B"]], rt.Nodup) ∧
      ([["A", "B"], ["A", "B"]] : List (List Label)).length < 2 ^ 32) ∧
    (∀ n lvl, 2 ≤ n →
      lookA n (resultLevelsW [["A", "B"], ["A", "B"]] 1 2) = some lvl →
      ∀ q ∈ lvl, ∃ lvlPrev,
        lookA (n - 1) (resultLevelsW [["A", "B"], ["A", "B"]] 1 2) =
          some lvlPrev ∧
        ∀ s, List.Sublist s q.1 → s.length + 1 = q.1.length →
          ∃ cnt', (s, cnt') ∈ lvlPrev ∧ q.2 ≤ cnt') :=
  ⟨⟨by decide, by norm_num⟩,
   claim_C3_amended [["A", "B"], ["A", "B"]] 1 2 (by decide)
     (by norm_num)⟩

end Apriori
